import Mathlib

/-!
# Verification of the c3-examples ComfyUI workflow client

Shallow embedding of the ComfyUI workflow client code of this repository
(the comfyui_client.py variants: 002-comfyui-script,
005-text-to-image-HiDream-script, 006-text-to-video-Wan2.1-Script),
with theorems checking the natural-language specification against the code.

Conventions:
* Python floats are embedded as rationals (`ℚ`).
* Fallible calls return `Option`; an exception is `none` unless noted.
* Remote I/O (HTTP responses, queue snapshots, the wall clock) is given
  to each function as explicit observation data.
-/

namespace C3Examples

/-- Python `int(q)` for a float value: truncation toward zero. -/
def pyInt (q : ℚ) : Int := if 0 ≤ q then ⌊q⌋ else ⌈q⌉

/-- Python `q % 1` for a float value (result in `[0, 1)` since the modulus is positive). -/
def pyMod1 (q : ℚ) : ℚ := q - ⌊q⌋

/-- Python `str.isdigit()`: nonempty and all characters decimal digits. -/
def pyIsDigit (s : String) : Bool := s ≠ "" && s.data.all Char.isDigit

/-! ## 002-comfyui-script/comfyui_client.py : local media introspection -/

/-- The outcome of `File(audio_path)` (mutagen) inside `get_audio_duration`:
the loader can return `None`, raise, or report a raw length in seconds. -/
inductive AudioLoad where
  | noFile              -- `File(...)` returned `None`
  | error               -- an exception was raised while reading the file
  | ok (length : ℚ)     -- `audio.info.length`
  deriving DecidableEq, Repr

/-- `ComfyUIClient.get_audio_duration` (002-comfyui-script/comfyui_client.py,
lines 156-186): truncate, add 1 if there is a fractional part, then add the
1-second safety margin; any failure to read the file yields the default 5. -/
def get_audio_duration : AudioLoad → Int
  | .noFile => 5
  | .error => 5
  | .ok raw =>
      let rounded := pyInt raw + (if 0 < pyMod1 raw then 1 else 0)
      rounded + 1

/-- The outcome of `Image.open(image_path)` inside `get_optimal_dimensions`:
either the pixel size, or an exception. -/
inductive ImageLoad where
  | error                        -- exception (unreadable image)
  | ok (width height : ℕ)        -- `img.size`
  deriving DecidableEq, Repr

/-- `ComfyUIClient.get_optimal_dimensions` (002-comfyui-script/comfyui_client.py,
lines 188-217), with the local variables `aspect_ratio`, `landscape_diff`,
`portrait_diff`, `square_diff` inlined.  `width / height` raising
`ZeroDivisionError` is caught by the `except` clause and also yields the
square default. -/
def get_optimal_dimensions : ImageLoad → ℕ × ℕ
  | .error => (576, 576)
  | .ok width height =>
      if height = 0 then (576, 576)   -- ZeroDivisionError caught by `except`
      else
        if |(width : ℚ) / (height : ℚ) - 16 / 9| ≤
            min |(width : ℚ) / (height : ℚ) - 9 / 16| |(width : ℚ) / (height : ℚ) - 1| then
          (1024, 576)
        else if |(width : ℚ) / (height : ℚ) - 9 / 16| ≤
            min |(width : ℚ) / (height : ℚ) - 16 / 9| |(width : ℚ) / (height : ℚ) - 1| then
          (576, 1024)
        else (576, 576)

/-- The absolute difference between `w/h` and the canonical ratio of a target size. -/
def ratioDiff (w h : ℕ) (t : ℕ × ℕ) : ℚ :=
  if t = (1024, 576) then |(w : ℚ) / (h : ℚ) - 16 / 9|
  else if t = (576, 1024) then |(w : ℚ) / (h : ℚ) - 9 / 16|
  else |(w : ℚ) / (h : ℚ) - 1|

lemma pyInt_eq_floor {d : ℚ} (hd : 0 ≤ d) : pyInt d = ⌊d⌋ := if_pos hd

lemma floor_add_indicator_eq_ceil (d : ℚ) :
    ⌊d⌋ + (if 0 < pyMod1 d then 1 else 0) = ⌈d⌉ := by
  unfold pyMod1
  split_ifs with h
  · symm
    rw [Int.ceil_eq_iff]
    have hfl := Int.lt_floor_add_one d
    constructor
    · push_cast
      linarith
    · push_cast
      linarith
  · have hle : d - ⌊d⌋ ≤ 0 := le_of_not_lt h
    have hge : (⌊d⌋ : ℚ) ≤ d := Int.floor_le d
    have heq : d = (⌊d⌋ : ℚ) := by linarith
    rw [heq]
    simp

/-- **C2.** For every non-negative raw audio duration `d` (seconds), the
injected duration computed by `get_audio_duration` equals `⌈d⌉ + 1`; in
particular `d = 3.1` yields 5, `d = 4.0` yields 5 and `d = 0` yields 1. -/
theorem get_audio_duration_ceil_plus_one :
    (∀ d : ℚ, 0 ≤ d → get_audio_duration (.ok d) = ⌈d⌉ + 1) ∧
    get_audio_duration (.ok (31 / 10)) = 5 ∧
    get_audio_duration (.ok 4) = 5 ∧
    get_audio_duration (.ok 0) = 1 := by
  have main : ∀ d : ℚ, 0 ≤ d → get_audio_duration (.ok d) = ⌈d⌉ + 1 := by
    intro d hd
    show pyInt d + (if 0 < pyMod1 d then 1 else 0) + 1 = ⌈d⌉ + 1
    rw [pyInt_eq_floor hd, floor_add_indicator_eq_ceil]
  refine ⟨main, ?_, ?_, ?_⟩
  · rw [main (31 / 10) (by norm_num)]
    have : ⌈(31 / 10 : ℚ)⌉ = 4 := by
      rw [Int.ceil_eq_iff]
      refine ⟨by norm_num, by norm_num⟩
    omega
  · rw [main 4 (by norm_num)]
    have : ⌈(4 : ℚ)⌉ = 4 := by
      rw [Int.ceil_eq_iff]
      refine ⟨by norm_num, by norm_num⟩
    omega
  · rw [main 0 le_rfl]
    have : ⌈(0 : ℚ)⌉ = 0 := by
      rw [Int.ceil_eq_iff]
      refine ⟨by norm_num, by norm_num⟩
    omega

/-- Witness for C2 at the concrete input `d = 3.1`. -/
theorem get_audio_duration_ceil_plus_one_witness :
    (0 : ℚ) ≤ 31 / 10 ∧ get_audio_duration (.ok (31 / 10)) = ⌈(31 / 10 : ℚ)⌉ + 1 :=
  ⟨by norm_num, get_audio_duration_ceil_plus_one.1 (31 / 10) (by norm_num)⟩

/-- **C10.** When the audio file cannot be loaded (`File(...)` returns `None`)
or reading its duration raises, `get_audio_duration` does not fail: both
failure branches return the fixed default injected duration 5. -/
theorem get_audio_duration_default_on_failure :
    get_audio_duration .noFile = 5 ∧ get_audio_duration .error = 5 :=
  ⟨rfl, rfl⟩

/-- **C3.** Aspect-ratio selection is total on positive dimensions and always
returns one of the three canonical sizes; the chosen size has minimal absolute
ratio difference from `w/h` among `{16:9, 9:16, 1:1}`; ties break
landscape > portrait > square (landscape wins any tie it is in; portrait wins
its tie against square but loses to landscape; square only wins strictly);
`w = h` yields square and `1920×1080` yields landscape. -/
theorem get_optimal_dimensions_spec :
    (∀ w h : ℕ, 0 < w → 0 < h →
      (get_optimal_dimensions (.ok w h) ∈
          ([(1024, 576), (576, 1024), (576, 576)] : List (ℕ × ℕ))) ∧
      (∀ t ∈ ([(1024, 576), (576, 1024), (576, 576)] : List (ℕ × ℕ)),
          ratioDiff w h (get_optimal_dimensions (.ok w h)) ≤ ratioDiff w h t) ∧
      (get_optimal_dimensions (.ok w h) = (1024, 576) ↔
          ratioDiff w h (1024, 576) ≤ ratioDiff w h (576, 1024) ∧
          ratioDiff w h (1024, 576) ≤ ratioDiff w h (576, 576)) ∧
      (get_optimal_dimensions (.ok w h) = (576, 1024) ↔
          ratioDiff w h (576, 1024) < ratioDiff w h (1024, 576) ∧
          ratioDiff w h (576, 1024) ≤ ratioDiff w h (576, 576)) ∧
      (get_optimal_dimensions (.ok w h) = (576, 576) ↔
          ratioDiff w h (576, 576) < ratioDiff w h (1024, 576) ∧
          ratioDiff w h (576, 576) < ratioDiff w h (576, 1024))) ∧
    (∀ n : ℕ, 0 < n → get_optimal_dimensions (.ok n n) = (576, 576)) ∧
    get_optimal_dimensions (.ok 1920 1080) = (1024, 576) := by
  have hL : ∀ w h : ℕ, ratioDiff w h (1024, 576) = |(w : ℚ) / (h : ℚ) - 16 / 9| := by
    intro w h
    simp [ratioDiff]
  have hP : ∀ w h : ℕ, ratioDiff w h (576, 1024) = |(w : ℚ) / (h : ℚ) - 9 / 16| := by
    intro w h
    simp [ratioDiff]
  have hS : ∀ w h : ℕ, ratioDiff w h (576, 576) = |(w : ℚ) / (h : ℚ) - 1| := by
    intro w h
    simp [ratioDiff]
  have key : ∀ w h : ℕ, h ≠ 0 →
      get_optimal_dimensions (.ok w h) =
        if ratioDiff w h (1024, 576) ≤
            min (ratioDiff w h (576, 1024)) (ratioDiff w h (576, 576)) then (1024, 576)
        else if ratioDiff w h (576, 1024) ≤
            min (ratioDiff w h (1024, 576)) (ratioDiff w h (576, 576)) then (576, 1024)
        else (576, 576) := by
    intro w h hh
    rw [hL, hP, hS]
    show (if h = 0 then _ else _) = _
    rw [if_neg hh]
  have main : ∀ w h : ℕ, 0 < w → 0 < h →
      (get_optimal_dimensions (.ok w h) ∈
          ([(1024, 576), (576, 1024), (576, 576)] : List (ℕ × ℕ))) ∧
      (∀ t ∈ ([(1024, 576), (576, 1024), (576, 576)] : List (ℕ × ℕ)),
          ratioDiff w h (get_optimal_dimensions (.ok w h)) ≤ ratioDiff w h t) ∧
      (get_optimal_dimensions (.ok w h) = (1024, 576) ↔
          ratioDiff w h (1024, 576) ≤ ratioDiff w h (576, 1024) ∧
          ratioDiff w h (1024, 576) ≤ ratioDiff w h (576, 576)) ∧
      (get_optimal_dimensions (.ok w h) = (576, 1024) ↔
          ratioDiff w h (576, 1024) < ratioDiff w h (1024, 576) ∧
          ratioDiff w h (576, 1024) ≤ ratioDiff w h (576, 576)) ∧
      (get_optimal_dimensions (.ok w h) = (576, 576) ↔
          ratioDiff w h (576, 576) < ratioDiff w h (1024, 576) ∧
          ratioDiff w h (576, 576) < ratioDiff w h (576, 1024)) := by
    intro w h _hw hh
    rw [key w h hh.ne']
    set ld := ratioDiff w h (1024, 576) with hld
    set pd := ratioDiff w h (576, 1024) with hpd
    set sd := ratioDiff w h (576, 576) with hsd
    clear_value ld pd sd
    split_ifs with h1 h2
    · rw [le_min_iff] at h1
      refine ⟨by simp, ?_, ⟨fun _ => h1, fun _ => rfl⟩, ?_, ?_⟩
      · intro t ht
        simp only [List.mem_cons, List.not_mem_nil, or_false] at ht
        rcases ht with rfl | rfl | rfl
        · exact le_rfl
        · rw [← hld, ← hpd]
          exact h1.1
        · rw [← hld, ← hsd]
          exact h1.2
      · refine ⟨fun he => absurd he (by decide), ?_⟩
        rintro ⟨hlt, _⟩
        exact absurd h1.1 (not_le.mpr hlt)
      · refine ⟨fun he => absurd he (by decide), ?_⟩
        rintro ⟨hlt, _⟩
        exact absurd h1.2 (not_le.mpr hlt)
    · rw [le_min_iff, not_and_or, not_le, not_le] at h1
      rw [le_min_iff] at h2
      have hpl : pd < ld := by
        rcases h1 with hc | hc
        · exact hc
        · exact lt_of_le_of_lt h2.2 hc
      refine ⟨by simp, ?_, ?_, ⟨fun _ => ⟨hpl, h2.2⟩, fun _ => rfl⟩, ?_⟩
      · intro t ht
        simp only [List.mem_cons, List.not_mem_nil, or_false] at ht
        rcases ht with rfl | rfl | rfl
        · rw [← hld, ← hpd]
          exact le_of_lt hpl
        · exact le_rfl
        · rw [← hpd, ← hsd]
          exact h2.2
      · refine ⟨fun he => absurd he (by decide), ?_⟩
        rintro ⟨hle1, _⟩
        exact absurd hle1 (not_le.mpr hpl)
      · refine ⟨fun he => absurd he (by decide), ?_⟩
        rintro ⟨_, hlt2⟩
        exact absurd h2.2 (not_le.mpr hlt2)
    · rw [le_min_iff, not_and_or, not_le, not_le] at h1
      rw [le_min_iff, not_and_or, not_le, not_le] at h2
      have hs : sd < ld ∧ sd < pd := by
        rcases h1 with hc1 | hc1 <;> rcases h2 with hc2 | hc2 <;>
          constructor <;> linarith
      refine ⟨by simp, ?_, ?_, ?_, ⟨fun _ => hs, fun _ => rfl⟩⟩
      · intro t ht
        simp only [List.mem_cons, List.not_mem_nil, or_false] at ht
        rcases ht with rfl | rfl | rfl
        · rw [← hld, ← hsd]
          exact le_of_lt hs.1
        · rw [← hpd, ← hsd]
          exact le_of_lt hs.2
        · exact le_rfl
      · refine ⟨fun he => absurd he (by decide), ?_⟩
        rintro ⟨_, hle2⟩
        exact absurd hs.1 (not_lt.mpr hle2)
      · refine ⟨fun he => absurd he (by decide), ?_⟩
        rintro ⟨_, hle2⟩
        exact absurd hs.2 (not_lt.mpr hle2)
  refine ⟨main, ?_, ?_⟩
  · intro n hn
    have hmem := (main n n hn hn).2.2.2.2
    rw [hmem]
    have hq : ((n : ℚ) / (n : ℚ)) = 1 := by
      rw [div_self]
      exact_mod_cast hn.ne'
    rw [hL, hP, hS, hq]
    norm_num
  · have h1920 := (main 1920 1080 (by norm_num) (by norm_num)).2.2.1
    rw [h1920, hL, hP, hS]
    have hq : ((1920 : ℕ) : ℚ) / ((1080 : ℕ) : ℚ) = 16 / 9 := by
      norm_num
    rw [hq]
    norm_num

/-- Witness for C3 at the concrete input `1920×1080`. -/
theorem get_optimal_dimensions_spec_witness :
    get_optimal_dimensions (.ok 1920 1080) ∈
      ([(1024, 576), (576, 1024), (576, 576)] : List (ℕ × ℕ)) :=
  (get_optimal_dimensions_spec.1 1920 1080 (by norm_num) (by norm_num)).1

/-! ## 006-text-to-video-Wan2.1-Script/comfyui_client.py : job submission -/

/-- One submission attempt as observed by `queue_workflow`:
either an HTTP response (status code plus the `prompt_id` field of the JSON
body, when present), or a `requests.RequestException`. -/
inductive AttemptResult where
  | resp (statusCode : ℕ) (promptId : Option String)
  | netError (msg : String)
  deriving DecidableEq, Repr

/-- The retry loop of `ComfyUIClient.queue_workflow`
(006-text-to-video-Wan2.1-Script/comfyui_client.py, lines 482-519).
`env i` is the outcome of the `i`-th POST attempt (0-based).  `remaining` is
`max_retries - retry` (so `remaining = 0` means the `for` loop is exhausted,
line 519, and `remaining = 1` means `retry == max_retries - 1`);
`retryDelay` starts at 2 and doubles after each failed non-final attempt.
Returns the result (`prompt_id` on HTTP 200, `None` otherwise), the list of
back-off delays actually slept, and the number of attempts made. -/
def queueWorkflowAux (env : ℕ → AttemptResult) :
    ℕ → ℕ → ℕ → Option String × List ℕ × ℕ
  | _, 0, _ => (none, [], 0)
  | retry, remaining + 1, retryDelay =>
      match env retry with
      | .resp statusCode promptId =>
          if statusCode = 200 then (promptId, [], 1)
          else if remaining = 0 then (none, [], 1)
          else
            let r := queueWorkflowAux env (retry + 1) remaining (retryDelay * 2)
            (r.1, retryDelay :: r.2.1, r.2.2 + 1)
      | .netError _ =>
          if remaining = 0 then (none, [], 1)
          else
            let r := queueWorkflowAux env (retry + 1) remaining (retryDelay * 2)
            (r.1, retryDelay :: r.2.1, r.2.2 + 1)

/-- `queue_workflow` retry loop with the literal constants of the source:
`max_retries = 3`, initial `retry_delay = 2`. -/
def queue_workflow (env : ℕ → AttemptResult) : Option String × List ℕ × ℕ :=
  queueWorkflowAux env 0 3 2

/-- Whether an attempt outcome is an HTTP 200 response. -/
def attemptIs200 : AttemptResult → Bool
  | .resp statusCode _ => statusCode = 200
  | .netError _ => false

lemma attemptIs200_false_resp {c : ℕ} {p : Option String}
    (h : attemptIs200 (.resp c p) = false) : c ≠ 200 := by
  simpa [attemptIs200] using h

lemma delays_shift (delay k : ℕ) :
    delay :: (List.range k).map (fun i => delay * 2 * 2 ^ i) =
      (List.range (k + 1)).map (fun i => delay * 2 ^ i) := by
  rw [List.range_succ_eq_map]
  simp only [List.map_cons, List.map_map, pow_zero, Nat.mul_one]
  refine congrArg _ ?_
  refine List.map_congr_left ?_
  intro i _
  simp only [Function.comp_apply, pow_succ]
  ring

lemma queueWorkflowAux_succ_resp (env : ℕ → AttemptResult) (retry n d c : ℕ)
    (p : Option String) (henv : env retry = .resp c p) :
    queueWorkflowAux env retry (n + 1) d =
      if c = 200 then (p, [], 1)
      else if n = 0 then (none, [], 1)
      else ((queueWorkflowAux env (retry + 1) n (d * 2)).1,
            d :: (queueWorkflowAux env (retry + 1) n (d * 2)).2.1,
            (queueWorkflowAux env (retry + 1) n (d * 2)).2.2 + 1) := by
  simp only [queueWorkflowAux, henv]

lemma queueWorkflowAux_succ_net (env : ℕ → AttemptResult) (retry n d : ℕ)
    (msg : String) (henv : env retry = .netError msg) :
    queueWorkflowAux env retry (n + 1) d =
      if n = 0 then (none, [], 1)
      else ((queueWorkflowAux env (retry + 1) n (d * 2)).1,
            d :: (queueWorkflowAux env (retry + 1) n (d * 2)).2.1,
            (queueWorkflowAux env (retry + 1) n (d * 2)).2.2 + 1) := by
  simp only [queueWorkflowAux, henv]

lemma queueWorkflowAux_attempts_le (env : ℕ → AttemptResult) :
    ∀ remaining retry retryDelay,
      (queueWorkflowAux env retry remaining retryDelay).2.2 ≤ remaining := by
  intro remaining
  induction remaining with
  | zero =>
      intro retry retryDelay
      simp [queueWorkflowAux]
  | succ n ih =>
      intro retry retryDelay
      cases henv : env retry with
      | resp c p =>
          rw [queueWorkflowAux_succ_resp env retry n retryDelay c p henv]
          split_ifs
          · simp
          · simp
          · show (queueWorkflowAux env (retry + 1) n (retryDelay * 2)).2.2 + 1 ≤ n + 1
            have := ih (retry + 1) (retryDelay * 2)
            omega
      | netError m =>
          rw [queueWorkflowAux_succ_net env retry n retryDelay m henv]
          split_ifs
          · simp
          · show (queueWorkflowAux env (retry + 1) n (retryDelay * 2)).2.2 + 1 ≤ n + 1
            have := ih (retry + 1) (retryDelay * 2)
            omega

lemma queueWorkflowAux_success (env : ℕ → AttemptResult) :
    ∀ k remaining retry retryDelay, k < remaining →
      (∀ i, i < k → attemptIs200 (env (retry + i)) = false) →
      ∀ pid : Option String, env (retry + k) = .resp 200 pid →
      queueWorkflowAux env retry remaining retryDelay =
        (pid, (List.range k).map (fun i => retryDelay * 2 ^ i), k + 1) := by
  intro k
  induction k with
  | zero =>
      intro remaining retry retryDelay hk _hfail pid h200
      obtain ⟨m, rfl⟩ := Nat.exists_eq_add_of_lt hk
      rw [Nat.add_zero] at h200
      rw [Nat.zero_add]
      rw [queueWorkflowAux_succ_resp env retry m retryDelay 200 pid h200]
      rw [if_pos rfl]
      simp
  | succ k ih =>
      intro remaining retry retryDelay hk hfail pid h200
      obtain ⟨m, rfl⟩ := Nat.exists_eq_add_of_lt hk
      have hrem : k + 1 + m + 1 = (k + m + 1) + 1 := by omega
      rw [hrem]
      have h0 : attemptIs200 (env retry) = false := by
        have := hfail 0 (Nat.succ_pos k)
        simpa using this
      have hrec := ih (k + m + 1) (retry + 1) (retryDelay * 2) (by omega)
        (fun i hi => by
          have := hfail (i + 1) (by omega)
          simpa [Nat.add_assoc, Nat.add_comm 1 i] using this)
        pid
        (by
          have heq : retry + 1 + k = retry + (k + 1) := by omega
          rw [heq]
          exact h200)
      cases henv : env retry with
      | resp c p =>
          rw [henv] at h0
          have hne : c ≠ 200 := attemptIs200_false_resp h0
          rw [queueWorkflowAux_succ_resp env retry (k + m + 1) retryDelay c p henv]
          rw [if_neg hne, if_neg (by omega : ¬ k + m + 1 = 0), hrec]
          show (pid, retryDelay :: (List.range k).map (fun i => retryDelay * 2 * 2 ^ i),
              k + 1 + 1) = _
          rw [delays_shift]
      | netError msg =>
          rw [queueWorkflowAux_succ_net env retry (k + m + 1) retryDelay msg henv]
          rw [if_neg (by omega : ¬ k + m + 1 = 0), hrec]
          show (pid, retryDelay :: (List.range k).map (fun i => retryDelay * 2 * 2 ^ i),
              k + 1 + 1) = _
          rw [delays_shift]

lemma queueWorkflowAux_all_fail (env : ℕ → AttemptResult) :
    ∀ remaining retry retryDelay, 0 < remaining →
      (∀ i, i < remaining → attemptIs200 (env (retry + i)) = false) →
      queueWorkflowAux env retry remaining retryDelay =
        (none, (List.range (remaining - 1)).map (fun i => retryDelay * 2 ^ i),
          remaining) := by
  intro remaining
  induction remaining with
  | zero =>
      intro retry retryDelay h
      exact absurd h (lt_irrefl 0)
  | succ n ih =>
      intro retry retryDelay _hpos hfail
      have h0 : attemptIs200 (env retry) = false := by
        have := hfail 0 (Nat.succ_pos n)
        simpa using this
      by_cases hn : n = 0
      · subst hn
        cases henv : env retry with
        | resp c p =>
            rw [henv] at h0
            rw [queueWorkflowAux_succ_resp env retry 0 retryDelay c p henv]
            rw [if_neg (attemptIs200_false_resp h0), if_pos rfl]
            simp
        | netError msg =>
            rw [queueWorkflowAux_succ_net env retry 0 retryDelay msg henv]
            rw [if_pos rfl]
            simp
      · have hrec := ih (retry + 1) (retryDelay * 2) (Nat.pos_of_ne_zero hn)
          (fun i hi => by
            have := hfail (i + 1) (by omega)
            simpa [Nat.add_assoc, Nat.add_comm 1 i] using this)
        have hlist : retryDelay ::
            (List.range (n - 1)).map (fun i => retryDelay * 2 * 2 ^ i) =
            (List.range n).map (fun i => retryDelay * 2 ^ i) := by
          have hn1 : n - 1 + 1 = n := Nat.succ_pred_eq_of_pos (Nat.pos_of_ne_zero hn)
          rw [delays_shift, hn1]
        cases henv : env retry with
        | resp c p =>
            rw [henv] at h0
            rw [queueWorkflowAux_succ_resp env retry n retryDelay c p henv]
            rw [if_neg (attemptIs200_false_resp h0), if_neg hn, hrec]
            show (none, retryDelay ::
                (List.range (n - 1)).map (fun i => retryDelay * 2 * 2 ^ i), n + 1) = _
            rw [hlist]
            have hsimp : n + 1 - 1 = n := by omega
            rw [hsimp]
        | netError msg =>
            rw [queueWorkflowAux_succ_net env retry n retryDelay msg henv]
            rw [if_neg hn, hrec]
            show (none, retryDelay ::
                (List.range (n - 1)).map (fun i => retryDelay * 2 * 2 ^ i), n + 1) = _
            rw [hlist]
            have hsimp : n + 1 - 1 = n := by omega
            rw [hsimp]

/-- **C5.** `queue_workflow` makes at most 3 attempts; if the first HTTP 200
success happens at 0-based attempt `k < 3` (all earlier attempts being
transient non-200/network failures), it returns the engine-assigned job id of
that attempt after `k+1` attempts with exponentially doubling delays
`[2, 4].take k` slept between attempts; if all 3 attempts fail it returns
`none` (clean submission failure) after exactly 3 attempts and the two
doubling delays `[2, 4]`, retrying no further. -/
theorem queue_workflow_retry_spec :
    (∀ env : ℕ → AttemptResult, (queue_workflow env).2.2 ≤ 3) ∧
    (∀ env : ℕ → AttemptResult, ∀ k : ℕ, k < 3 →
      (∀ i, i < k → attemptIs200 (env i) = false) →
      ∀ pid : Option String, env k = .resp 200 pid →
      queue_workflow env = (pid, [2, 4].take k, k + 1)) ∧
    (∀ env : ℕ → AttemptResult,
      (∀ i, i < 3 → attemptIs200 (env i) = false) →
      queue_workflow env = (none, [2, 4], 3)) := by
  refine ⟨fun env => queueWorkflowAux_attempts_le env 3 0 2, ?_, ?_⟩
  · intro env k hk hfail pid h200
    have := queueWorkflowAux_success env k 3 0 2 hk
      (fun i hi => by simpa using hfail i hi) pid (by simpa using h200)
    rw [queue_workflow, this]
    interval_cases k <;> rfl
  · intro env hfail
    have := queueWorkflowAux_all_fail env 3 0 2 (by norm_num)
      (fun i hi => by simpa using hfail i hi)
    rw [queue_workflow, this]
    rfl

/-- Witness for C5: two transient 503s followed by a 200 succeed at attempt 3
with delays 2 and 4; three failures exhaust the budget cleanly. -/
theorem queue_workflow_retry_spec_witness :
    queue_workflow
        (fun i => if i < 2 then .resp 503 none else .resp 200 (some "job-1")) =
      (some "job-1", [2, 4], 3) :=
  queue_workflow_retry_spec.2.1
    (fun i => if i < 2 then .resp 503 none else .resp 200 (some "job-1"))
    2 (by norm_num)
    (fun i hi => by interval_cases i <;> rfl)
    (some "job-1") (by rfl)

/-! ## 006-text-to-video-Wan2.1-Script/comfyui_client.py : artifact download -/

/-- `filename.lower().endswith(('.mp4', '.avi', '.mov', '.webm'))`. -/
def hasVideoExt (filename : String) : Bool :=
  let l := filename.toLower
  l.endsWith ".mp4" || l.endsWith ".avi" || l.endsWith ".mov" || l.endsWith ".webm"

/-- `urlencode` over an ordered parameter list (percent-escaping of the
values is not modelled; parameter order follows dict insertion order as in
the source). -/
def encodeParams (ps : List (String × String)) : String :=
  String.intercalate "&" (ps.map (fun p => p.1 ++ "=" ++ p.2))

/-- `ComfyUIClient.get_video_url` (006 client, lines 866-881).  The float
`frame_rate` is rendered with `ℚ`'s `toString`. -/
def get_video_url (serverUrl filename subfolder formatType : String)
    (frameRate : ℚ) : String :=
  serverUrl ++ "/api/viewvideo?" ++ encodeParams
    ([("filename", filename), ("type", "output")]
      ++ (if subfolder ≠ "" then [("subfolder", subfolder)] else [])
      ++ (if formatType ≠ "" then [("format", formatType)] else [])
      ++ (if frameRate ≠ 0 then [("frame_rate", toString frameRate)] else []))

/-- The non-video download URL built inside `download_file` (lines 1040-1049)
from the `/api/view` endpoint. -/
def viewUrl (serverUrl filename subfolder : String) : String :=
  serverUrl ++ "/api/view?" ++ encodeParams
    ([("filename", filename), ("type", "output")]
      ++ (if subfolder ≠ "" then [("subfolder", subfolder)] else []))

/-- The primary download URL chosen by `download_file` (lines 1028-1049):
`get_video_url` (with Python `or`-defaults `"video/h264-mp4"` and `24.0`)
for video extensions, the `/api/view` URL otherwise. -/
def downloadUrlFor (serverUrl filename subfolder : String)
    (formatType : Option String) (frameRate : Option ℚ) : String :=
  if hasVideoExt filename then
    get_video_url serverUrl filename subfolder
      (match formatType with
        | some f => if f ≠ "" then f else "video/h264-mp4"
        | none => "video/h264-mp4")
      (match frameRate with
        | some r => if r ≠ 0 then r else 24
        | none => 24)
  else viewUrl serverUrl filename subfolder

/-- Observable outcome of one `download_file` call. -/
structure DownloadOutcome where
  result : Option String        -- the returned path, `None` on failure
  fallbackTried : Bool          -- whether the direct-download GET was issued
  fallbackUrl : Option String   -- the URL of that fallback GET
  madeDir : Bool                -- whether `os.makedirs(output_dir)` ran
  deriving DecidableEq, Repr

/-- `ComfyUIClient.download_file` (006 client, lines 1024-1113).
`primaryStatus` / `fallbackStatus` are the HTTP status codes returned by the
session GET and (if issued) the direct GET with `api_key` appended to the
query string.  The warm-up `prepare_video_for_viewing` HEAD request (line
1056) has no observable effect on the result and is not modelled. -/
def download_file (serverUrl apiKey filename outputDir subfolder : String)
    (formatType : Option String) (frameRate : Option ℚ)
    (primaryStatus fallbackStatus : ℕ) : DownloadOutcome :=
  let download_url := downloadUrlFor serverUrl filename subfolder formatType frameRate
  if primaryStatus = 200 then
    { result := some (outputDir ++ "/" ++ filename)
      fallbackTried := false
      fallbackUrl := none
      madeDir := true }
  else
    let direct_url := download_url ++ "&api_key=" ++ apiKey
    if fallbackStatus = 200 then
      { result := some (outputDir ++ "/" ++ filename)
        fallbackTried := true
        fallbackUrl := some direct_url
        madeDir := true }
    else
      { result := none
        fallbackTried := true
        fallbackUrl := some direct_url
        madeDir := false }

/-- **C6.** On a non-200 primary response exactly one fallback attempt is made,
via a URL that embeds the API key as the `api_key` query parameter; the
download fails (returns `None`) iff both the primary and the fallback GET
fail; on either success the file is written to `outputDir/filename` with the
destination directory created. -/
theorem download_file_fallback_spec :
    ∀ serverUrl apiKey filename outputDir subfolder : String,
    ∀ formatType : Option String, ∀ frameRate : Option ℚ,
    ∀ primaryStatus fallbackStatus : ℕ,
      (download_file serverUrl apiKey filename outputDir subfolder formatType
          frameRate primaryStatus fallbackStatus).fallbackTried =
        decide (primaryStatus ≠ 200) ∧
      ((download_file serverUrl apiKey filename outputDir subfolder formatType
          frameRate primaryStatus fallbackStatus).result = none ↔
        primaryStatus ≠ 200 ∧ fallbackStatus ≠ 200) ∧
      (∀ p : String,
        (download_file serverUrl apiKey filename outputDir subfolder formatType
            frameRate primaryStatus fallbackStatus).result = some p →
        p = outputDir ++ "/" ++ filename ∧
        (download_file serverUrl apiKey filename outputDir subfolder formatType
            frameRate primaryStatus fallbackStatus).madeDir = true) ∧
      (primaryStatus ≠ 200 →
        (download_file serverUrl apiKey filename outputDir subfolder formatType
            frameRate primaryStatus fallbackStatus).fallbackUrl =
          some (downloadUrlFor serverUrl filename subfolder formatType frameRate
            ++ "&api_key=" ++ apiKey)) := by
  intro serverUrl apiKey filename outputDir subfolder formatType frameRate pS fS
  unfold download_file
  by_cases hp : pS = 200
  · rw [if_pos hp]
    subst hp
    refine ⟨by simp, by simp, ?_, by simp⟩
    intro p hp'
    simp only [Option.some.injEq] at hp'
    exact ⟨hp'.symm, rfl⟩
  · rw [if_neg hp]
    by_cases hf : fS = 200
    · rw [if_pos hf]
      subst hf
      refine ⟨by simp [hp], by simp [hp], ?_, fun _ => rfl⟩
      intro p hp'
      simp only [Option.some.injEq] at hp'
      exact ⟨hp'.symm, rfl⟩
    · rw [if_neg hf]
      exact ⟨by simp [hp], by simp [hp, hf], fun p hp' => by simp at hp',
        fun _ => rfl⟩

/-- Witness for C6: primary 403, fallback 200 downloads to `out/f.mp4`. -/
theorem download_file_fallback_spec_witness :
    ("out/f.mp4" : String) = "out" ++ "/" ++ "f.mp4" ∧
      (download_file "http://s" "key" "f.mp4" "out" "" none none 403 200).madeDir
        = true :=
  (download_file_fallback_spec "http://s" "key" "f.mp4" "out" "" none none
      403 200).2.2.1 "out/f.mp4" (by rfl)

/-! ## Graph model: JSON values

The workflow graphs handled by the 006 client are JSON trees (as produced by
`json.load`).  `num` carries a rational (embedding Python ints and floats);
Python cross-type equalities such as `True == 1` are not relied upon by the
code paths modelled here. -/

inductive Json where
  | null
  | bool (b : Bool)
  | num (q : ℚ)
  | str (s : String)
  | arr (elems : List Json)
  | obj (fields : List (String × Json))
  deriving Repr

namespace Json

mutual

/-- Structural equality of JSON values (Python `==` for the scalar and
homogeneous composite cases the client compares). -/
def beq : Json → Json → Bool
  | .null, .null => true
  | .bool a, .bool b => a = b
  | .num a, .num b => a = b
  | .str a, .str b => a = b
  | .arr xs, .arr ys => beqList xs ys
  | .obj xs, .obj ys => beqFields xs ys
  | _, _ => false

/-- Elementwise `beq` on arrays. -/
def beqList : List Json → List Json → Bool
  | u :: us, v :: vs => beq u v && beqList us vs
  | [], [] => true
  | _, _ => false

/-- Elementwise `beq` on object field lists. -/
def beqFields : List (String × Json) → List (String × Json) → Bool
  | (ka, va) :: us, (kb, vb) :: vs => ka = kb && beq va vb && beqFields us vs
  | [], [] => true
  | _, _ => false

end

/-- Whether a JSON value is the given string (Python `v == "lit"`). -/
def isStr : Json → String → Bool
  | .str t, s => t = s
  | _, _ => false

/-- Python `value.get(k)` / `k in value` on a dict; `none` on a missing key
(first binding wins, as in a dict no key is bound twice). -/
def get : Json → String → Option Json
  | .obj fields, k => (fields.find? (fun kv => kv.1 = k)).map (·.2)
  | _, _ => none

/-- Python truthiness of a JSON value. -/
def truthy : Json → Bool
  | .null => false
  | .bool b => b
  | .num q => q ≠ 0
  | .str s => s ≠ ""
  | .arr xs => !xs.isEmpty
  | .obj kvs => !kvs.isEmpty

/-- `str(v)` for the scalar values used as node ids and link sources
(composite values never appear there in the workflows handled). -/
def pyStr : Json → String
  | .null => "None"
  | .bool true => "True"
  | .bool false => "False"
  | .num q => if q.den = 1 then toString q.num else toString q
  | .str s => s
  | .arr _ => "<list>"
  | .obj _ => "<dict>"

/-- `len(v)` for sized values; `none` models a `TypeError`. -/
def pyLen? : Json → Option ℕ
  | .arr xs => some xs.length
  | .obj kvs => some kvs.length
  | .str s => some s.length
  | _ => none

/-- `v[i]` for a non-negative index; `none` models an exception. -/
def pyIndex? : Json → ℕ → Option Json
  | .arr xs, i => xs.get? i
  | .str s, i => (s.toList.get? i).map (fun c => .str (String.singleton c))
  | _, _ => none

/-- `float(v)`; string parsing is not modelled (the workflows store numbers
here), so a string argument is treated as the exceptional case `none`. -/
def pyFloat? : Json → Option ℚ
  | .num q => some q
  | .bool b => some (if b then 1 else 0)
  | _ => none

end Json

/-- `dict[k] = v`: replace in place if the key is bound, else append
(Python dict insertion-order semantics). -/
def setKey : List (String × Json) → String → Json → List (String × Json)
  | [], k, v => [(k, v)]
  | (k', v') :: t, k, v =>
      if k' = k then (k, v) :: t else (k', v') :: setKey t k v

/-- `dict.update(upd)` over ordered field lists. -/
def updateKeys (base upd : List (String × Json)) : List (String × Json) :=
  upd.foldl (fun acc kv => setKey acc kv.1 kv.2) base

/-- Substring test (`needle in hay` for Python strings). -/
def strContains (needle hay : String) : Bool :=
  (List.range (hay.toList.length + 1)).any
    (fun i => needle.toList.isPrefixOf (hay.toList.drop i))

/-! ## `_transform_workflow_to_api_format` (006 client, lines 525-723) -/

/-- The widget-value part of `ComfyUIClient._process_node_inputs`
(006 client, lines 564-708): translate the positional `widgets_values` of a
node into named inputs according to the per-type schema.  Returns the ordered
update dict (`some []` when the type has no schema or the arity guard fails),
`none` for a raised exception. -/
def processWidgets (nodeJ ty : Json) : Option (List (String × Json)) :=
  match nodeJ.get "widgets_values" with
  | none => some []
  | some wv =>
      if ty.isStr "WanVideoTextEncode" then do
        let len ← wv.pyLen?
        if len ≥ 2 then do
          let w0 ← wv.pyIndex? 0
          let w1 ← wv.pyIndex? 1
          let fz ← if len > 2 then wv.pyIndex? 2 else some (.bool true)
          some [("positive_prompt", w0), ("negative_prompt", w1),
                ("force_zeros", fz)]
        else some []
      else if ty.isStr "WanVideoBlockSwap" then do
        let len ← wv.pyLen?
        if len ≥ 5 then do
          let w0 ← wv.pyIndex? 0
          let w1 ← wv.pyIndex? 1
          let w2 ← wv.pyIndex? 2
          let w3 ← wv.pyIndex? 3
          let w4 ← wv.pyIndex? 4
          some [("blocks_to_swap", w0), ("offload_txt_emb", w1),
                ("offload_img_emb", w2), ("non_blocking", w3),
                ("vace_blocks_to_swap", w4)]
        else some []
      else if ty.isStr "WanVideoEmptyEmbeds" then do
        let len ← wv.pyLen?
        if len ≥ 3 then do
          let w0 ← wv.pyIndex? 0
          let w1 ← wv.pyIndex? 1
          let w2 ← wv.pyIndex? 2
          some [("width", w0), ("height", w1), ("num_frames", w2)]
        else some []
      else if ty.isStr "WanVideoTorchCompileSettings" then do
        let len ← wv.pyLen?
        if len ≥ 7 then do
          let w0 ← wv.pyIndex? 0
          let w1 ← wv.pyIndex? 1
          let w2 ← wv.pyIndex? 2
          let w3 ← wv.pyIndex? 3
          let w4 ← wv.pyIndex? 4
          let w5 ← wv.pyIndex? 5
          let w6 ← wv.pyIndex? 6
          some [("backend", w0), ("fullgraph", w1), ("mode", w2),
                ("max_autotune", w3), ("max_autotune_gemm_backends", w4),
                ("use_fp16_cast", w5), ("max_autotune_gemm_warmup", w6),
                ("compile_transformer_blocks_only", .bool false),
                ("dynamic", .bool false),
                ("dynamo_cache_size_limit", .num 64)]
        else some []
      else if ty.isStr "WanVideoTeaCache" then do
        let len ← wv.pyLen?
        if len ≥ 6 then do
          let w0 ← wv.pyIndex? 0
          let w1 ← wv.pyIndex? 1
          let w2 ← wv.pyIndex? 2
          let w3 ← wv.pyIndex? 3
          let w4 ← wv.pyIndex? 4
          let w5 ← wv.pyIndex? 5
          let f ← w2.pyFloat?
          let uc : Json := match w4 with
            | .str s => .bool (s = "true")
            | v => v
          some [("start_step", w0), ("end_step", w1),
                ("rel_l1_thresh", .num (max 0 f)), ("cache_device", w3),
                ("use_coefficients", uc), ("coeff_mode", w5)]
        else some []
      else if ty.isStr "WanVideoEnhanceAVideo" then do
        let len ← wv.pyLen?
        if len ≥ 3 then do
          let w0 ← wv.pyIndex? 0
          let w1 ← wv.pyIndex? 1
          let w2 ← wv.pyIndex? 2
          some [("enhance_factor", w0), ("enhance_start", w1),
                ("enhance_end", w2), ("start_percent", .num 0),
                ("end_percent", .num 1), ("weight", .num 1)]
        else some []
      else if ty.isStr "WanVideoSampler" then do
        let len ← wv.pyLen?
        if len ≥ 10 then do
          let w0 ← wv.pyIndex? 0
          let w1 ← wv.pyIndex? 1
          let w2 ← wv.pyIndex? 2
          let w3 ← wv.pyIndex? 3
          let w4 ← wv.pyIndex? 4
          let w5 ← wv.pyIndex? 5
          let w6 ← wv.pyIndex? 6
          let w7 ← wv.pyIndex? 7
          let impl ← if len > 10 then wv.pyIndex? 10 else some (.str "comfy")
          some [("steps", w0), ("cfg", w1), ("shift", w2), ("seed", w3),
                ("sampler_name", w4), ("diffusion_type", w5),
                ("scheduler", w6), ("riflex_freq_index", w7),
                ("implementation", impl)]
        else some []
      else if ty.isStr "WanVideoDecode" then do
        let len ← wv.pyLen?
        if len ≥ 5 then do
          let w0 ← wv.pyIndex? 0
          let w1 ← wv.pyIndex? 1
          let w2 ← wv.pyIndex? 2
          let w3 ← wv.pyIndex? 3
          let w4 ← wv.pyIndex? 4
          some [("restore_faces", w0), ("tile_x", w1), ("tile_y", w2),
                ("tile_stride_x", w3), ("tile_stride_y", w4),
                ("enable_vae_tiling", .bool true)]
        else some []
      else if ty.isStr "WanVideoVAELoader" then do
        let len ← wv.pyLen?
        if len ≥ 2 then do
          let w0 ← wv.pyIndex? 0
          let w1 ← wv.pyIndex? 1
          some [("model_name", w0), ("precision", w1)]
        else some []
      else if ty.isStr "WanVideoModelLoader" then do
        let len ← wv.pyLen?
        if len ≥ 5 then do
          let w0 ← wv.pyIndex? 0
          let w1 ← wv.pyIndex? 1
          let w2 ← wv.pyIndex? 2
          let w3 ← wv.pyIndex? 3
          let w4 ← wv.pyIndex? 4
          let q ← match w2 with
            | .str s =>
                some (Json.str (if strContains "fp8" s.toLower then "disabled" else s))
            | _ => none       -- `.lower()` on a non-string raises
          some [("model", w0), ("base_precision", w1), ("quantization", q),
                ("load_device", w3), ("attention_implementation", w4)]
        else some []
      else if ty.isStr "VHS_VideoCombine" then
        match wv with
        | .obj _ =>
            some [("frame_rate", (wv.get "frame_rate").getD (.num 24)),
                  ("loop_count", (wv.get "loop_count").getD (.num 0)),
                  ("filename_prefix", (wv.get "filename_prefix").getD (.str "video_output")),
                  ("format", (wv.get "format").getD (.str "video/h264-mp4")),
                  ("pingpong", (wv.get "pingpong").getD (.bool false)),
                  ("save_output", (wv.get "save_output").getD (.bool true))]
        | _ => some []
      else some []

/-- `for link in workflow["links"]: if link[0] == link_id: ... break`
(006 client, lines 717-723).  `some none`: no link matched (the loop falls
through without assigning); `some (some (src, idx))`: the first matching
link's `str(link[1])` and `link[2]`; `none`: an indexing exception. -/
def findLink : List Json → Json → Option (Option (String × Json))
  | [], _ => some none
  | l :: rest, lid =>
      match l with
      | .arr (x :: t) =>
          if Json.beq x lid then
            match t with
            | src :: idx :: _ => some (some (src.pyStr, idx))
            | _ => none
          else findLink rest lid
      | _ => none

/-- The connection part of `_process_node_inputs` (lines 710-723): for each
entry of `node["inputs"]` holding a non-null `link` id, resolve it through
the link table and bind `[str(sourceNodeId), outputIndex]` under the entry's
name. -/
def resolveLinks (items : List Json) (linksJ : Json)
    (inputs : List (String × Json)) : Option (List (String × Json)) :=
  items.foldlM
    (fun acc item => do
      let nameJ ← item.get "name"
      let name ← match nameJ with
        | .str s => some s
        | _ => none                    -- names are strings in the visual format
      match item.get "link" with
      | none => pure acc
      | some .null => pure acc         -- `link_id is not None` fails
      | some lid => do
          let links ← match linksJ with
            | .arr ls => some ls
            | _ => none                -- iterating a non-list raises
          match (← findLink links lid) with
          | none => pure acc
          | some (src, idx) =>
              pure (setKey acc name (Json.arr [.str src, idx])))
    inputs

/-- One iteration of the node loop of `_transform_workflow_to_api_format`
(lines 541-560): skip `Note` nodes, build the node record (`class_type`,
widget- and link-derived `inputs`, optional `_meta.title`) and bind it under
`str(node["id"])` in the accumulated execution form. -/
def transformNode (w : Json) (acc : List (String × Json)) (nodeJ : Json) :
    Option (List (String × Json)) := do
  let ty ← nodeJ.get "type"
  if ty.isStr "Note" then
    pure acc
  else do
    let classType : Json :=
      match nodeJ.get "class_type" with
      | some ct => if ct.truthy then ct else ty   -- `node.get("class_type") or node["type"]`
      | none => ty
    let widgetUpd ← processWidgets nodeJ ty
    let inputs1 := updateKeys [] widgetUpd
    let inputs2 ←
      match nodeJ.get "inputs", w.get "links" with
      | some (Json.arr items), some linksJ =>
          if linksJ.truthy then resolveLinks items linksJ inputs1 else pure inputs1
      | some _, some linksJ =>
          if linksJ.truthy then none else pure inputs1  -- iterating non-list inputs raises
      | _, _ => pure inputs1
    let idJ ← nodeJ.get "id"
    let cfg :=
      [("class_type", classType), ("inputs", Json.obj inputs2)] ++
      (match nodeJ.get "title" with
        | some t => if t.truthy then [("_meta", Json.obj [("title", t)])] else []
        | none => [])
    pure (setKey acc idJ.pyStr (Json.obj cfg))

/-- `ComfyUIClient._transform_workflow_to_api_format` (006 client,
lines 525-562): unwrap a `prompt` payload or return the graph unchanged when
it has no (truthy) node collection; return `nodes` itself when it is already
a mapping; otherwise compile the visual node list.  `none` models a raised
exception (the graph shapes the code would crash on). -/
def transformWorkflowToApiFormat (w : Json) : Option Json :=
  if ((w.get "nodes").map Json.truthy).getD false then
    match w.get "nodes" with
    | some (.obj kvs) => some (.obj kvs)
    | some (.arr nodeList) => (nodeList.foldlM (transformNode w) []).map Json.obj
    | _ => none
  else
    match w.get "prompt" with
    | some p => if p.truthy then some p else some w
    | none => some w

/-- **C8 (counterexample).**  The claim "compilation is the identity on every
graph with no node list" fails on the code: a graph carrying no `nodes` entry
but a `prompt` wrapper is returned unwrapped (`workflow["prompt"]`), not
unchanged. -/
theorem transform_identity_counterexample :
    (((Json.obj [("prompt", Json.obj [("1", Json.obj [])])]).get "nodes").map
        Json.truthy).getD false = false ∧
    transformWorkflowToApiFormat (Json.obj [("prompt", Json.obj [("1", Json.obj [])])]) =
      some (Json.obj [("1", Json.obj [])]) ∧
    transformWorkflowToApiFormat (Json.obj [("prompt", Json.obj [("1", Json.obj [])])]) ≠
      some (Json.obj [("prompt", Json.obj [("1", Json.obj [])])]) := by
  refine ⟨rfl, rfl, ?_⟩
  rw [show transformWorkflowToApiFormat
        (Json.obj [("prompt", Json.obj [("1", Json.obj [])])]) =
      some (Json.obj [("1", Json.obj [])]) from rfl]
  intro hcontra
  have h1 := Option.some.inj hcontra
  injection h1 with hf
  injection hf with hhead _
  injection hhead with hkey _
  exact absurd hkey (by decide)

/-- **C8 (amended).**  For every graph without a truthy `nodes` entry *and
without a truthy `prompt` entry*, `_transform_workflow_to_api_format` is the
identity: it returns the input graph itself.  (With a truthy `prompt` entry
the code instead unwraps and returns `workflow["prompt"]`.) -/
theorem transform_identity_no_nodes :
    ∀ w : Json, ((w.get "nodes").map Json.truthy).getD false = false →
      ((w.get "prompt").map Json.truthy).getD false = false →
      transformWorkflowToApiFormat w = some w := by
  intro w h1 h2
  unfold transformWorkflowToApiFormat
  rw [if_neg (by rw [h1]; exact Bool.false_ne_true)]
  cases hp : w.get "prompt" with
  | none => rfl
  | some p =>
      rw [hp] at h2
      simp at h2
      show (if p.truthy = true then some p else some w) = some w
      rw [if_neg (by rw [h2]; exact Bool.false_ne_true)]

/-- Witness for C8's amended theorem at a concrete execution-form graph. -/
theorem transform_identity_no_nodes_witness :
    transformWorkflowToApiFormat (Json.obj [("7", Json.obj [("class_type", Json.str "X")])]) =
      some (Json.obj [("7", Json.obj [("class_type", Json.str "X")])]) :=
  transform_identity_no_nodes
    (Json.obj [("7", Json.obj [("class_type", Json.str "X")])]) rfl rfl

/-! ## Heap model: deep-copy independence of `update_workflow`

`update_workflow` (006 client, lines 172-206) mutates Python objects:
`updated_workflow = json.loads(json.dumps(workflow))` builds a fresh object
graph and `node["widgets_values"][0] = prompt` writes into it.  To state the
frame property (claim C7) we model the Python object store explicitly: a heap
of cells addressed by naturals, where arrays and objects hold addresses of
their elements.  `dumps` serializes a heap value to a `Json` tree (with fuel,
since `json.dumps` diverges-or-raises on cyclic stores) and `loads` allocates
a fresh tree of cells, exactly like the `json.loads(json.dumps(...))` round
trip in the source. -/

/-- A heap cell: one Python object.  Addresses are naturals. -/
inductive JVal where
  | vnull
  | vbool (b : Bool)
  | vnum (q : ℚ)
  | vstr (s : String)
  | varr (elems : List ℕ)
  | vobj (fields : List (String × ℕ))
  deriving DecidableEq, Repr

/-- The addresses a cell points to. -/
def JVal.children : JVal → List ℕ
  | .varr es => es
  | .vobj fs => fs.map (·.2)
  | _ => []

/-- The object store: an association list of cells (first binding wins). -/
abbrev Heap := List (ℕ × JVal)

/-- Dereference an address. -/
def lookupH (h : Heap) (a : ℕ) : Option JVal :=
  (h.find? (fun c => c.1 = a)).map (·.2)

/-- Overwrite the cell at an address in place (append if absent). -/
def heapSet : Heap → ℕ → JVal → Heap
  | [], a, v => [(a, v)]
  | (b, w) :: t, a, v => if b = a then (a, v) :: t else (b, w) :: heapSet t a v

/-- `json.dumps`: serialize the value rooted at `a` to a JSON tree.  `none`
models the exception on dangling references or exhausted recursion (cycles). -/
def dumps (h : Heap) : ℕ → ℕ → Option Json
  | 0, _ => none
  | fuel + 1, a =>
      match lookupH h a with
      | some .vnull => some .null
      | some (.vbool b) => some (.bool b)
      | some (.vnum q) => some (.num q)
      | some (.vstr s) => some (.str s)
      | some (.varr es) => (es.mapM (dumps h fuel)).map Json.arr
      | some (.vobj fs) =>
          (fs.mapM (fun kv => (dumps h fuel kv.2).map (fun t => (kv.1, t)))).map
            Json.obj
      | none => none

mutual

/-- `json.loads`: allocate a fresh object graph for a JSON tree, using
consecutive addresses starting at `f`.  Returns the new cells, the root
address and the next free address. -/
def loads : Json → ℕ → Heap × ℕ × ℕ
  | .null, f => ([(f, .vnull)], f, f + 1)
  | .bool b, f => ([(f, .vbool b)], f, f + 1)
  | .num q, f => ([(f, .vnum q)], f, f + 1)
  | .str s, f => ([(f, .vstr s)], f, f + 1)
  | .arr xs, f =>
      let r := loadsList xs f
      (r.1 ++ [(r.2.2, .varr r.2.1)], r.2.2, r.2.2 + 1)
  | .obj kvs, f =>
      let r := loadsFields kvs f
      (r.1 ++ [(r.2.2, .vobj r.2.1)], r.2.2, r.2.2 + 1)

/-- `loads` over the elements of an array. -/
def loadsList : List Json → ℕ → Heap × List ℕ × ℕ
  | [], f => ([], [], f)
  | x :: xs, f =>
      let rx := loads x f
      let rs := loadsList xs rx.2.2
      (rx.1 ++ rs.1, rx.2.1 :: rs.2.1, rs.2.2)

/-- `loads` over the fields of an object. -/
def loadsFields : List (String × Json) → ℕ → Heap × List (String × ℕ) × ℕ
  | [], f => ([], [], f)
  | (k, v) :: kvs, f =>
      let rv := loads v f
      let rs := loadsFields kvs rv.2.2
      (rv.1 ++ rs.1, (k, rv.2.1) :: rs.2.1, rs.2.2)

end

/-- `value.get(k)` on a heap object cell, returning the field's address. -/
def jObjGetAddr (h : Heap) (a : ℕ) (k : String) : Option ℕ :=
  match lookupH h a with
  | some (.vobj fs) => (fs.find? (fun kv => kv.1 = k)).map (·.2)
  | _ => none

/-- `node.get("type") == ty` on the heap. -/
def nodeTypeIs (h : Heap) (nodeAddr : ℕ) (ty : String) : Bool :=
  match jObjGetAddr h nodeAddr "type" with
  | some ta =>
      match lookupH h ta with
      | some (.vstr s) => s = ty
      | _ => false
  | none => false

/-- The loop body of `update_workflow` (006 client, lines 184-191 for the
list form, 194-201 for the dict form): on a `WanVideoTextEncode` node with a
non-empty `widgets_values` array, write the prompt into slot 0 — allocating a
fresh string cell at the running free address and repointing the array's
first element, which is exactly the effect of the Python assignment
`node["widgets_values"][0] = prompt`. -/
def updateNodeH (prompt : String) : Heap × ℕ → ℕ → Heap × ℕ
  | (h, fr), nodeAddr =>
      if nodeTypeIs h nodeAddr "WanVideoTextEncode" then
        match jObjGetAddr h nodeAddr "widgets_values" with
        | some wa =>
            match lookupH h wa with
            | some (.varr (_ :: rest)) =>
                (heapSet (h ++ [(fr, .vstr prompt)]) wa (.varr (fr :: rest)),
                  fr + 1)
            | _ => (h, fr)   -- `len(...) >= 1` fails, or a non-array value
        | none => (h, fr)
      else (h, fr)

/-- `ComfyUIClient.update_workflow` (006 client, lines 172-206) on the heap
model: deep-copy the workflow via `loads (dumps ...)` into fresh addresses
starting at `fresh`, then run the prompt-injection loop over the copy's node
collection (list or dict form).  Returns the new heap, the copy's root and
the next free address. -/
def update_workflow_heap (h : Heap) (root : ℕ) (prompt : String)
    (fuel fresh : ℕ) : Option (Heap × ℕ × ℕ) :=
  match dumps h fuel root with
  | none => none
  | some t =>
      let r := loads t fresh
      let h1 := h ++ r.1
      let croot := r.2.1
      let f1 := r.2.2
      match jObjGetAddr h1 croot "nodes" with
      | none => some (h1, croot, f1)
      | some na =>
          match lookupH h1 na with
          | some (.varr nodeAddrs) =>
              let hf := nodeAddrs.foldl (updateNodeH prompt) (h1, f1)
              some (hf.1, croot, hf.2)
          | some (.vobj fields) =>
              let hf := (fields.map (·.2)).foldl (updateNodeH prompt) (h1, f1)
              some (hf.1, croot, hf.2)
          | _ => some (h1, croot, f1)

/-- Bounded heap, decidably: every cell sits below `n` and points below `n`. -/
def heapBoundedB (h : Heap) (n : ℕ) : Bool :=
  h.all (fun c => c.1 < n && c.2.children.all (· < n))

/-- Every cell of `h` sits below `n` and points below `n`. -/
def HeapBounded (h : Heap) (n : ℕ) : Prop :=
  ∀ a v, lookupH h a = some v → a < n ∧ ∀ c ∈ v.children, c < n

/-- Every cell of `h` at an address `≥ lo` points only to addresses `≥ lo`. -/
def RegionClosed (h : Heap) (lo : ℕ) : Prop :=
  ∀ a v, lookupH h a = some v → lo ≤ a → ∀ c ∈ v.children, lo ≤ c

/-- Every cell of `h` sits below `n` (nothing about its pointers). -/
def HeapBelow (h : Heap) (n : ℕ) : Prop :=
  ∀ a v, lookupH h a = some v → a < n

lemma lookupH_mem {h : Heap} {a : ℕ} {v : JVal}
    (hl : lookupH h a = some v) : (a, v) ∈ h := by
  unfold lookupH at hl
  cases hfind : h.find? (fun c => c.1 = a) with
  | none => rw [hfind] at hl; cases hl
  | some c =>
      rw [hfind] at hl
      have hmem := List.mem_of_find?_eq_some hfind
      have hp := List.find?_some hfind
      simp only [decide_eq_true_eq] at hp
      simp only [Option.map_some', Option.some.injEq] at hl
      rw [← hp, ← hl]
      exact hmem

lemma heapBounded_of_B {h : Heap} {n : ℕ} (hb : heapBoundedB h n = true) :
    HeapBounded h n := by
  intro a v hl
  have hmem := lookupH_mem hl
  unfold heapBoundedB at hb
  rw [List.all_eq_true] at hb
  have := hb _ hmem
  simp only [Bool.and_eq_true, List.all_eq_true, decide_eq_true_eq] at this
  exact ⟨this.1, fun c hc => this.2 c hc⟩

lemma lookupH_eq_none {h : Heap} {a : ℕ} (hno : ∀ c ∈ h, c.1 ≠ a) :
    lookupH h a = none := by
  unfold lookupH
  rw [List.find?_eq_none.mpr]
  · rfl
  · intro c hc
    simpa using hno c hc

lemma lookupH_append_some {h1 h2 : Heap} {a : ℕ} {v : JVal}
    (hl : lookupH h1 a = some v) : lookupH (h1 ++ h2) a = some v := by
  unfold lookupH at hl ⊢
  rw [List.find?_append]
  cases hf : h1.find? (fun c => c.1 = a) with
  | none => rw [hf] at hl; cases hl
  | some c =>
      rw [hf] at hl
      simpa using hl

lemma lookupH_append_none {h1 h2 : Heap} {a : ℕ}
    (hl : lookupH h1 a = none) : lookupH (h1 ++ h2) a = lookupH h2 a := by
  unfold lookupH at hl ⊢
  rw [List.find?_append]
  cases hf : h1.find? (fun c => c.1 = a) with
  | none => simp
  | some c => rw [hf] at hl; simp at hl

lemma lookupH_heapSet_ne (h : Heap) (a b : ℕ) (v : JVal) (hne : b ≠ a) :
    lookupH (heapSet h a v) b = lookupH h b := by
  induction h with
  | nil =>
      simp only [heapSet, lookupH, List.find?]
      have : (decide ((a, v).1 = b)) = false := by
        simp [Ne.symm hne]
      simp [this]
  | cons c t ih =>
      obtain ⟨c1, c2⟩ := c
      simp only [heapSet]
      by_cases hc : c1 = a
      · rw [if_pos hc]
        subst hc
        simp only [lookupH, List.find?]
        have h1 : (decide ((c1, v).1 = b)) = false := by simp [Ne.symm hne]
        have h2 : (decide ((c1, c2).1 = b)) = false := by simp [Ne.symm hne]
        simp only [h1, h2]
      · rw [if_neg hc]
        simp only [lookupH, List.find?]
        by_cases hcb : c1 = b
        · subst hcb
          simp
        · have h2 : (decide ((c1, c2).1 = b)) = false := by simp [hcb]
          simp only [h2]
          exact ih

lemma lookupH_heapSet_cases (h : Heap) (a b : ℕ) (v : JVal) :
    lookupH (heapSet h a v) b = some v ∧ b = a ∨
      lookupH (heapSet h a v) b = lookupH h b ∧ b ≠ a := by
  by_cases hba : b = a
  · subst hba
    left
    refine ⟨?_, rfl⟩
    induction h with
    | nil => simp [heapSet, lookupH]
    | cons c t ih =>
        obtain ⟨c1, c2⟩ := c
        simp only [heapSet]
        by_cases hc : c1 = b
        · rw [if_pos hc]
          simp [lookupH]
        · rw [if_neg hc]
          simp only [lookupH, List.find?]
          have h2 : (decide ((c1, c2).1 = b)) = false := by simp [hc]
          simp only [h2]
          exact ih
  · right
    exact ⟨lookupH_heapSet_ne h a b v hba, hba⟩

lemma loads_arr (xs : List Json) (f : ℕ) :
    loads (.arr xs) f =
      ((loadsList xs f).1 ++ [((loadsList xs f).2.2, .varr (loadsList xs f).2.1)],
        (loadsList xs f).2.2, (loadsList xs f).2.2 + 1) := rfl

lemma loads_obj (kvs : List (String × Json)) (f : ℕ) :
    loads (.obj kvs) f =
      ((loadsFields kvs f).1 ++
          [((loadsFields kvs f).2.2, .vobj (loadsFields kvs f).2.1)],
        (loadsFields kvs f).2.2, (loadsFields kvs f).2.2 + 1) := rfl

lemma loadsList_cons (x : Json) (xs : List Json) (f : ℕ) :
    loadsList (x :: xs) f =
      ((loads x f).1 ++ (loadsList xs (loads x f).2.2).1,
        (loads x f).2.1 :: (loadsList xs (loads x f).2.2).2.1,
        (loadsList xs (loads x f).2.2).2.2) := rfl

lemma loadsFields_cons (k : String) (v : Json) (kvs : List (String × Json))
    (f : ℕ) :
    loadsFields ((k, v) :: kvs) f =
      ((loads v f).1 ++ (loadsFields kvs (loads v f).2.2).1,
        (k, (loads v f).2.1) :: (loadsFields kvs (loads v f).2.2).2.1,
        (loadsFields kvs (loads v f).2.2).2.2) := rfl

mutual

/-- Range and closedness of `loads`: the root and every allocated cell live
in `[f, next)`, and allocated cells point only into `[f, next)`. -/
theorem loads_spec : ∀ (t : Json) (f : ℕ),
    f ≤ (loads t f).2.1 ∧ (loads t f).2.1 < (loads t f).2.2 ∧
    ∀ c ∈ (loads t f).1,
      (f ≤ c.1 ∧ c.1 < (loads t f).2.2) ∧
      ∀ ch ∈ c.2.children, f ≤ ch ∧ ch < (loads t f).2.2
  | .null, f => by
      refine ⟨le_refl f, Nat.lt_succ_self f, ?_⟩
      intro c hc
      simp only [loads, List.mem_singleton] at hc
      subst hc
      exact ⟨⟨le_refl f, Nat.lt_succ_self f⟩, by simp [JVal.children]⟩
  | .bool b, f => by
      refine ⟨le_refl f, Nat.lt_succ_self f, ?_⟩
      intro c hc
      simp only [loads, List.mem_singleton] at hc
      subst hc
      exact ⟨⟨le_refl f, Nat.lt_succ_self f⟩, by simp [JVal.children]⟩
  | .num q, f => by
      refine ⟨le_refl f, Nat.lt_succ_self f, ?_⟩
      intro c hc
      simp only [loads, List.mem_singleton] at hc
      subst hc
      exact ⟨⟨le_refl f, Nat.lt_succ_self f⟩, by simp [JVal.children]⟩
  | .str s, f => by
      refine ⟨le_refl f, Nat.lt_succ_self f, ?_⟩
      intro c hc
      simp only [loads, List.mem_singleton] at hc
      subst hc
      exact ⟨⟨le_refl f, Nat.lt_succ_self f⟩, by simp [JVal.children]⟩
  | .arr xs, f => by
      obtain ⟨h1, h2, h3⟩ := loadsList_spec xs f
      rw [loads_arr]
      refine ⟨h1, Nat.lt_succ_self _, ?_⟩
      intro c hc
      rw [List.mem_append, List.mem_singleton] at hc
      rcases hc with hc | hc
      · obtain ⟨⟨hb1, hb2⟩, hb3⟩ := h3 c hc
        refine ⟨⟨hb1, Nat.lt_succ_of_lt hb2⟩, ?_⟩
        intro ch hch
        obtain ⟨hc1, hc2⟩ := hb3 ch hch
        exact ⟨hc1, Nat.lt_succ_of_lt hc2⟩
      · subst hc
        refine ⟨⟨h1, Nat.lt_succ_self _⟩, ?_⟩
        intro ch hch
        simp only [JVal.children] at hch
        obtain ⟨hc1, hc2⟩ := h2 ch hch
        exact ⟨hc1, Nat.lt_succ_of_lt hc2⟩
  | .obj kvs, f => by
      obtain ⟨h1, h2, h3⟩ := loadsFields_spec kvs f
      rw [loads_obj]
      refine ⟨h1, Nat.lt_succ_self _, ?_⟩
      intro c hc
      rw [List.mem_append, List.mem_singleton] at hc
      rcases hc with hc | hc
      · obtain ⟨⟨hb1, hb2⟩, hb3⟩ := h3 c hc
        refine ⟨⟨hb1, Nat.lt_succ_of_lt hb2⟩, ?_⟩
        intro ch hch
        obtain ⟨hc1, hc2⟩ := hb3 ch hch
        exact ⟨hc1, Nat.lt_succ_of_lt hc2⟩
      · subst hc
        refine ⟨⟨h1, Nat.lt_succ_self _⟩, ?_⟩
        intro ch hch
        simp only [JVal.children, List.mem_map] at hch
        obtain ⟨kv, hkv, rfl⟩ := hch
        obtain ⟨hc1, hc2⟩ := h2 kv.2 (List.mem_map_of_mem _ hkv)
        exact ⟨hc1, Nat.lt_succ_of_lt hc2⟩

/-- Range and closedness of `loadsList`. -/
theorem loadsList_spec : ∀ (xs : List Json) (f : ℕ),
    f ≤ (loadsList xs f).2.2 ∧
    (∀ a ∈ (loadsList xs f).2.1, f ≤ a ∧ a < (loadsList xs f).2.2) ∧
    ∀ c ∈ (loadsList xs f).1,
      (f ≤ c.1 ∧ c.1 < (loadsList xs f).2.2) ∧
      ∀ ch ∈ c.2.children, f ≤ ch ∧ ch < (loadsList xs f).2.2
  | [], f => by
      refine ⟨le_refl f, ?_, ?_⟩
      · intro a ha
        simp [loadsList] at ha
      · intro c hc
        simp [loadsList] at hc
  | x :: xs, f => by
      obtain ⟨g1, g2, g3⟩ := loads_spec x f
      obtain ⟨k1, k2, k3⟩ := loadsList_spec xs (loads x f).2.2
      rw [loadsList_cons]
      have hmono : f ≤ (loads x f).2.2 := le_of_lt (lt_of_le_of_lt g1 g2)
      refine ⟨le_trans hmono k1, ?_, ?_⟩
      · intro a ha
        rw [List.mem_cons] at ha
        rcases ha with rfl | ha
        · exact ⟨g1, lt_of_lt_of_le g2 k1⟩
        · obtain ⟨hk1, hk2⟩ := k2 a ha
          exact ⟨le_trans hmono hk1, hk2⟩
      · intro c hc
        rw [List.mem_append] at hc
        rcases hc with hc | hc
        · obtain ⟨⟨hb1, hb2⟩, hb3⟩ := g3 c hc
          refine ⟨⟨hb1, lt_of_lt_of_le hb2 k1⟩, ?_⟩
          intro ch hch
          obtain ⟨hc1, hc2⟩ := hb3 ch hch
          exact ⟨hc1, lt_of_lt_of_le hc2 k1⟩
        · obtain ⟨⟨hb1, hb2⟩, hb3⟩ := k3 c hc
          refine ⟨⟨le_trans hmono hb1, hb2⟩, ?_⟩
          intro ch hch
          obtain ⟨hc1, hc2⟩ := hb3 ch hch
          exact ⟨le_trans hmono hc1, hc2⟩

/-- Range and closedness of `loadsFields`. -/
theorem loadsFields_spec : ∀ (kvs : List (String × Json)) (f : ℕ),
    f ≤ (loadsFields kvs f).2.2 ∧
    (∀ a ∈ (loadsFields kvs f).2.1.map (·.2),
        f ≤ a ∧ a < (loadsFields kvs f).2.2) ∧
    ∀ c ∈ (loadsFields kvs f).1,
      (f ≤ c.1 ∧ c.1 < (loadsFields kvs f).2.2) ∧
      ∀ ch ∈ c.2.children, f ≤ ch ∧ ch < (loadsFields kvs f).2.2
  | [], f => by
      refine ⟨le_refl f, ?_, ?_⟩
      · intro a ha
        simp [loadsFields] at ha
      · intro c hc
        simp [loadsFields] at hc
  | (k, v) :: kvs, f => by
      obtain ⟨g1, g2, g3⟩ := loads_spec v f
      obtain ⟨k1, k2, k3⟩ := loadsFields_spec kvs (loads v f).2.2
      rw [loadsFields_cons]
      have hmono : f ≤ (loads v f).2.2 := le_of_lt (lt_of_le_of_lt g1 g2)
      refine ⟨le_trans hmono k1, ?_, ?_⟩
      · intro a ha
        simp only [List.map_cons, List.mem_cons] at ha
        rcases ha with rfl | ha
        · exact ⟨g1, lt_of_lt_of_le g2 k1⟩
        · obtain ⟨hk1, hk2⟩ := k2 a ha
          exact ⟨le_trans hmono hk1, hk2⟩
      · intro c hc
        rw [List.mem_append] at hc
        rcases hc with hc | hc
        · obtain ⟨⟨hb1, hb2⟩, hb3⟩ := g3 c hc
          refine ⟨⟨hb1, lt_of_lt_of_le hb2 k1⟩, ?_⟩
          intro ch hch
          obtain ⟨hc1, hc2⟩ := hb3 ch hch
          exact ⟨hc1, lt_of_lt_of_le hc2 k1⟩
        · obtain ⟨⟨hb1, hb2⟩, hb3⟩ := k3 c hc
          refine ⟨⟨le_trans hmono hb1, hb2⟩, ?_⟩
          intro ch hch
          obtain ⟨hc1, hc2⟩ := hb3 ch hch
          exact ⟨le_trans hmono hc1, hc2⟩

end

lemma lookupH_append_cases {h1 h2 : Heap} {a : ℕ} {v : JVal}
    (hl : lookupH (h1 ++ h2) a = some v) :
    lookupH h1 a = some v ∨ (lookupH h1 a = none ∧ lookupH h2 a = some v) := by
  cases hc : lookupH h1 a with
  | none =>
      right
      rw [lookupH_append_none hc] at hl
      exact ⟨rfl, hl⟩
  | some w =>
      left
      rw [lookupH_append_some hc] at hl
      exact hl

lemma lookupH_singleton (a b : ℕ) (v : JVal) :
    lookupH [(b, v)] a = if b = a then some v else none := by
  simp only [lookupH, List.find?]
  by_cases hba : b = a
  · simp [hba]
  · simp [hba]

/-- Invariant carried through the prompt-injection loop: the heap agrees with
the pristine heap `h0` below `fresh`, the region at or above `fresh` is
closed, all cells sit below the free pointer `fr`, and `fr` is in the fresh
region. -/
structure CopyInv (h0 h : Heap) (fresh fr : ℕ) : Prop where
  oldAgree : ∀ a, a < fresh → lookupH h a = lookupH h0 a
  closed : RegionClosed h fresh
  below : HeapBelow h fr
  le : fresh ≤ fr

lemma updateNodeH_eq (prompt : String) (h : Heap) (fr : ℕ) (nodeAddr : ℕ) :
    updateNodeH prompt (h, fr) nodeAddr =
      if nodeTypeIs h nodeAddr "WanVideoTextEncode" then
        match jObjGetAddr h nodeAddr "widgets_values" with
        | some wa =>
            match lookupH h wa with
            | some (.varr (_ :: rest)) =>
                (heapSet (h ++ [(fr, .vstr prompt)]) wa (.varr (fr :: rest)),
                  fr + 1)
            | _ => (h, fr)
        | none => (h, fr)
      else (h, fr) := rfl

lemma updateNodeH_inv {h0 h : Heap} {fresh fr : ℕ} {prompt : String}
    {nodeAddr : ℕ}
    (inv : CopyInv h0 h fresh fr) (hna : fresh ≤ nodeAddr) :
    CopyInv h0 (updateNodeH prompt (h, fr) nodeAddr).1 fresh
      (updateNodeH prompt (h, fr) nodeAddr).2 := by
  rw [updateNodeH_eq]
  split_ifs with hty
  · split
    · -- `jObjGetAddr = some wa`
      rename_i wa hwa
      split
      · -- `lookupH h wa = some (.varr (e :: rest))`: the write case
        rename_i e rest hlw
        have hwafresh : fresh ≤ wa := by
          unfold jObjGetAddr at hwa
          split at hwa
          · rename_i fs hn
            have hcl := inv.closed nodeAddr _ hn hna
            cases hfind : fs.find? (fun kv => kv.1 = "widgets_values") with
            | none => rw [hfind] at hwa; cases hwa
            | some kv =>
                rw [hfind] at hwa
                simp only [Option.map_some', Option.some.injEq] at hwa
                refine hcl wa ?_
                rw [← hwa]
                simp only [JVal.children]
                exact List.mem_map_of_mem _ (List.mem_of_find?_eq_some hfind)
          · cases hwa
        have hwalt : wa < fr := inv.below wa _ hlw
        have hrest : ∀ c ∈ e :: rest, fresh ≤ c := by
          have := inv.closed wa _ hlw hwafresh
          simpa [JVal.children] using this
        show CopyInv h0
          (heapSet (h ++ [(fr, .vstr prompt)]) wa (.varr (fr :: rest))) fresh
          (fr + 1)
        constructor
        · -- oldAgree
          intro a ha
          have hne : a ≠ wa := by omega
          show lookupH (heapSet (h ++ [(fr, .vstr prompt)]) wa
              (.varr (fr :: rest))) a = lookupH h0 a
          rw [lookupH_heapSet_ne _ _ _ _ hne]
          cases hl0 : lookupH h a with
          | none =>
              rw [lookupH_append_none hl0, lookupH_singleton]
              rw [if_neg (show ¬ fr = a by omega)]
              rw [← inv.oldAgree a ha]
              exact hl0.symm
          | some w =>
              rw [lookupH_append_some hl0]
              rw [← inv.oldAgree a ha]
              exact hl0.symm
        · -- RegionClosed
          intro a v hl ha
          rcases lookupH_heapSet_cases (h ++ [(fr, .vstr prompt)]) wa a
              (.varr (fr :: rest)) with ⟨heq, rfl⟩ | ⟨heq, hne⟩
          · rw [heq] at hl
            cases hl
            intro c hc
            simp only [JVal.children, List.mem_cons] at hc
            rcases hc with rfl | hc
            · exact inv.le
            · exact hrest c (List.mem_cons_of_mem e hc)
          · rw [heq] at hl
            rcases lookupH_append_cases hl with hcase | ⟨_, hcase⟩
            · exact inv.closed a v hcase ha
            · rw [lookupH_singleton] at hcase
              by_cases hfa : fr = a
              · rw [if_pos hfa] at hcase
                cases hcase
                intro c hc
                simp [JVal.children] at hc
              · rw [if_neg hfa] at hcase
                cases hcase
        · -- HeapBelow (fr + 1)
          intro a v hl
          rcases lookupH_heapSet_cases (h ++ [(fr, .vstr prompt)]) wa a
              (.varr (fr :: rest)) with ⟨_, rfl⟩ | ⟨heq, hne⟩
          · omega
          · rw [heq] at hl
            rcases lookupH_append_cases hl with hcase | ⟨_, hcase⟩
            · have := inv.below a v hcase
              omega
            · rw [lookupH_singleton] at hcase
              by_cases hfa : fr = a
              · omega
              · rw [if_neg hfa] at hcase
                cases hcase
        · -- fresh ≤ fr + 1
          omega
      · -- the array shape does not match: no write
        exact inv
    · exact inv
  · exact inv

lemma updateNodeH_fr_mono (prompt : String) (h : Heap) (fr : ℕ)
    (nodeAddr : ℕ) : fr ≤ (updateNodeH prompt (h, fr) nodeAddr).2 := by
  rw [updateNodeH_eq]
  split_ifs
  · split
    · split
      · exact Nat.le_succ fr
      · exact le_refl fr
    · exact le_refl fr
  · exact le_refl fr

lemma foldl_updateNodeH_inv {h0 : Heap} {fresh : ℕ} {prompt : String} :
    ∀ (addrs : List ℕ) (h : Heap) (fr : ℕ),
      CopyInv h0 h fresh fr → (∀ x ∈ addrs, fresh ≤ x) →
      CopyInv h0 (addrs.foldl (updateNodeH prompt) (h, fr)).1 fresh
        (addrs.foldl (updateNodeH prompt) (h, fr)).2 := by
  intro addrs
  induction addrs with
  | nil =>
      intro h fr inv _
      simpa using inv
  | cons x xs ih =>
      intro h fr inv hall
      simp only [List.foldl_cons]
      have inv' := @updateNodeH_inv h0 h fresh fr prompt x inv
        (hall x (List.mem_cons_self x xs))
      exact ih _ _ inv' (fun y hy => hall y (List.mem_cons_of_mem x hy))

lemma mapM_dumps_agree {h0 h' : Heap} {fresh n : ℕ}
    (ih : ∀ a, a < fresh → dumps h' n a = dumps h0 n a) :
    ∀ es : List ℕ, (∀ e ∈ es, e < fresh) →
      es.mapM (dumps h' n) = es.mapM (dumps h0 n) := by
  intro es
  induction es with
  | nil => intro _; rfl
  | cons e es ihe =>
      intro hall
      rw [List.mapM_cons, List.mapM_cons]
      rw [ih e (hall e (List.mem_cons_self e es)),
        ihe (fun x hx => hall x (List.mem_cons_of_mem e hx))]

lemma mapM_dumps_fields_agree {h0 h' : Heap} {fresh n : ℕ}
    (ih : ∀ a, a < fresh → dumps h' n a = dumps h0 n a) :
    ∀ fs : List (String × ℕ), (∀ kv ∈ fs, kv.2 < fresh) →
      fs.mapM (fun kv => (dumps h' n kv.2).map (fun t => (kv.1, t))) =
        fs.mapM (fun kv => (dumps h0 n kv.2).map (fun t => (kv.1, t))) := by
  intro fs
  induction fs with
  | nil => intro _; rfl
  | cons kv fs ihf =>
      intro hall
      rw [List.mapM_cons, List.mapM_cons]
      rw [ih kv.2 (hall kv (List.mem_cons_self kv fs)),
        ihf (fun x hx => hall x (List.mem_cons_of_mem kv hx))]

/-- The serialized value of any address of the original region is unchanged
whenever the heap still agrees with the original on that region. -/
lemma dumps_agree {h0 h' : Heap} {fresh : ℕ}
    (hb : HeapBounded h0 fresh)
    (hagree : ∀ a, a < fresh → lookupH h' a = lookupH h0 a) :
    ∀ (fuel a : ℕ), a < fresh → dumps h' fuel a = dumps h0 fuel a := by
  intro fuel
  induction fuel with
  | zero =>
      intro a _
      rfl
  | succ n ih =>
      intro a ha
      simp only [dumps]
      rw [hagree a ha]
      cases hl : lookupH h0 a with
      | none => rfl
      | some v =>
          cases v with
          | vnull => rfl
          | vbool b => rfl
          | vnum q => rfl
          | vstr s => rfl
          | varr es =>
              have hch : ∀ e ∈ es, e < fresh := by
                have := (hb a _ hl).2
                simpa [JVal.children] using this
              show (es.mapM (dumps h' n)).map Json.arr =
                (es.mapM (dumps h0 n)).map Json.arr
              rw [mapM_dumps_agree ih es hch]
          | vobj fs =>
              have hch : ∀ kv ∈ fs, kv.2 < fresh := by
                have := (hb a _ hl).2
                simp only [JVal.children] at this
                intro kv hkv
                exact this kv.2 (List.mem_map_of_mem _ hkv)
              show (fs.mapM (fun kv => (dumps h' n kv.2).map
                  (fun t => (kv.1, t)))).map Json.obj =
                (fs.mapM (fun kv => (dumps h0 n kv.2).map
                  (fun t => (kv.1, t)))).map Json.obj
              rw [mapM_dumps_fields_agree ih fs hch]

/-- The addresses reachable from `a` in at most `k` pointer steps. -/
def reachIn (h : Heap) : ℕ → ℕ → List ℕ
  | 0, a => [a]
  | k + 1, a =>
      a :: (match lookupH h a with
            | some v => v.children.flatMap (reachIn h k)
            | none => [])

lemma reachIn_ge {h : Heap} {fresh : ℕ} (hcl : RegionClosed h fresh) :
    ∀ (k a : ℕ), fresh ≤ a → ∀ x ∈ reachIn h k a, fresh ≤ x := by
  intro k
  induction k with
  | zero =>
      intro a ha x hx
      simp only [reachIn, List.mem_singleton] at hx
      subst hx
      exact ha
  | succ n ih =>
      intro a ha x hx
      simp only [reachIn, List.mem_cons] at hx
      rcases hx with rfl | hx'
      · exact ha
      · split at hx'
        · rename_i v hl
          rw [List.mem_flatMap] at hx'
          obtain ⟨c, hc, hx''⟩ := hx'
          exact ih c (hcl a v hl ha c hc) x hx''
        · simp at hx'

lemma jObjGetAddr_child {h : Heap} {a : ℕ} {k : String} {fa : ℕ}
    (hj : jObjGetAddr h a k = some fa) :
    ∃ fs, lookupH h a = some (.vobj fs) ∧ fa ∈ (JVal.vobj fs).children := by
  unfold jObjGetAddr at hj
  split at hj
  · rename_i fs hl
    refine ⟨fs, hl, ?_⟩
    cases hfind : fs.find? (fun kv => kv.1 = k) with
    | none => rw [hfind] at hj; cases hj
    | some kv =>
        rw [hfind] at hj
        simp only [Option.map_some', Option.some.injEq] at hj
        rw [← hj]
        simp only [JVal.children]
        exact List.mem_map_of_mem _ (List.mem_of_find?_eq_some hfind)
  · cases hj

/-- **C7.**  `update_workflow` never mutates the input graph `G`: the deep
copy `json.loads(json.dumps(G))` lives entirely in fresh addresses (every
address reachable from the copy's root is outside `G`'s region, so no mutable
substructure is shared), every cell of the original heap is untouched by the
injection loop, the serialized value of `G` is unchanged, and consequently
compiling `G` (`_transform_workflow_to_api_format` over its serialized form)
yields the same result before and after the injection. -/
theorem update_workflow_no_mutation :
    ∀ (h : Heap) (root : ℕ) (prompt : String) (fuel fresh : ℕ)
      (h' : Heap) (croot f' : ℕ),
      heapBoundedB h fresh = true → root < fresh →
      update_workflow_heap h root prompt fuel fresh = some (h', croot, f') →
      fresh ≤ croot ∧
      (∀ kk x, x ∈ reachIn h' kk croot → fresh ≤ x) ∧
      (∀ a, a < fresh → lookupH h' a = lookupH h a) ∧
      (∀ fuelD, dumps h' fuelD root = dumps h fuelD root) ∧
      (∀ fuelD, (dumps h' fuelD root).bind transformWorkflowToApiFormat =
          (dumps h fuelD root).bind transformWorkflowToApiFormat) := by
  intro h root prompt fuel fresh h' croot f' hB hroot hupd
  have hb := heapBounded_of_B hB
  simp only [update_workflow_heap] at hupd
  split at hupd
  · cases hupd
  · rename_i t ht
    -- base facts about the copy cells
    obtain ⟨hsp1, hsp2, hsp3⟩ := loads_spec t fresh
    have hagree1 : ∀ a, a < fresh →
        lookupH (h ++ (loads t fresh).1) a = lookupH h a := by
      intro a ha
      cases hl : lookupH h a with
      | some w => exact lookupH_append_some hl
      | none =>
          rw [lookupH_append_none hl]
          refine lookupH_eq_none ?_
          intro c hc
          have := (hsp3 c hc).1.1
          omega
    have hclosed1 : RegionClosed (h ++ (loads t fresh).1) fresh := by
      intro a v hl ha c hc
      rcases lookupH_append_cases hl with hcase | ⟨_, hcase⟩
      · have := (hb a v hcase).1
        omega
      · have hmem := lookupH_mem hcase
        exact ((hsp3 _ hmem).2 c hc).1
    have hbelow1 : HeapBelow (h ++ (loads t fresh).1) (loads t fresh).2.2 := by
      intro a v hl
      rcases lookupH_append_cases hl with hcase | ⟨_, hcase⟩
      · have := (hb a v hcase).1
        omega
      · have hmem := lookupH_mem hcase
        exact ((hsp3 _ hmem).1).2
    have hle1 : fresh ≤ (loads t fresh).2.2 := by omega
    have hinv1 : CopyInv h (h ++ (loads t fresh).1) fresh (loads t fresh).2.2 :=
      ⟨hagree1, hclosed1, hbelow1, hle1⟩
    -- a helper to package the conclusions from a final invariant
    have finish : ∀ (h2 : Heap),
        (∀ a, a < fresh → lookupH h2 a = lookupH h a) →
        RegionClosed h2 fresh →
        h' = h2 → croot = (loads t fresh).2.1 →
        fresh ≤ croot ∧
        (∀ kk x, x ∈ reachIn h' kk croot → fresh ≤ x) ∧
        (∀ a, a < fresh → lookupH h' a = lookupH h a) ∧
        (∀ fuelD, dumps h' fuelD root = dumps h fuelD root) ∧
        (∀ fuelD, (dumps h' fuelD root).bind transformWorkflowToApiFormat =
            (dumps h fuelD root).bind transformWorkflowToApiFormat) := by
      intro h2 hag hcl heq hceq
      subst heq
      subst hceq
      have hfr : fresh ≤ (loads t fresh).2.1 := hsp1
      have hdmp : ∀ fuelD, dumps h' fuelD root = dumps h fuelD root :=
        fun fuelD => dumps_agree hb hag fuelD root hroot
      refine ⟨hfr, ?_, hag, hdmp, ?_⟩
      · intro kk x hx
        exact reachIn_ge hcl kk _ hfr x hx
      · intro fuelD
        rw [hdmp fuelD]
    split at hupd
    · -- no `nodes` entry: the copy is returned as is
      simp only [Option.some.injEq, Prod.mk.injEq] at hupd
      obtain ⟨he1, he2, _⟩ := hupd
      exact finish _ hagree1 hclosed1 he1.symm he2.symm
    · rename_i na hna
      split at hupd
      · -- nodes is a list
        rename_i nodeAddrs hnodes
        obtain ⟨fs0, hcr, hna_child⟩ := jObjGetAddr_child hna
        have hnafresh : fresh ≤ na := hclosed1 _ _ hcr hsp1 na hna_child
        have haddrs : ∀ x ∈ nodeAddrs, fresh ≤ x := by
          intro x hx
          have := hclosed1 _ _ hnodes hnafresh x
          simp only [JVal.children] at this
          exact this hx
        have hfinal := @foldl_updateNodeH_inv h fresh prompt nodeAddrs _ _ hinv1 haddrs
        simp only [Option.some.injEq, Prod.mk.injEq] at hupd
        obtain ⟨he1, he2, _⟩ := hupd
        exact finish _ hfinal.oldAgree hfinal.closed he1.symm he2.symm
      · -- nodes is a dict
        rename_i fields hfields
        obtain ⟨fs0, hcr, hna_child⟩ := jObjGetAddr_child hna
        have hnafresh : fresh ≤ na := hclosed1 _ _ hcr hsp1 na hna_child
        have haddrs : ∀ x ∈ fields.map (·.2), fresh ≤ x := by
          intro x hx
          have := hclosed1 _ _ hfields hnafresh x
          simp only [JVal.children] at this
          exact this hx
        have hfinal := @foldl_updateNodeH_inv h fresh prompt (fields.map (·.2)) _ _ hinv1 haddrs
        simp only [Option.some.injEq, Prod.mk.injEq] at hupd
        obtain ⟨he1, he2, _⟩ := hupd
        exact finish _ hfinal.oldAgree hfinal.closed he1.symm he2.symm
      · -- nodes is neither a list nor a dict: the copy is returned as is
        simp only [Option.some.injEq, Prod.mk.injEq] at hupd
        obtain ⟨he1, he2, _⟩ := hupd
        exact finish _ hagree1 hclosed1 he1.symm he2.symm

/-- Witness for C7 at a concrete one-node graph heap. -/
theorem update_workflow_no_mutation_witness :
    heapBoundedB [(0, JVal.vstr "x")] 1 = true ∧
    (update_workflow_heap [(0, JVal.vstr "x")] 0 "p" 5 1).isSome ∧
    (∀ a, a < 1 →
      lookupH [(0, JVal.vstr "x"), (1, JVal.vstr "x")] a =
        lookupH [(0, JVal.vstr "x")] a) := by
  refine ⟨by decide, by decide, ?_⟩
  have hm := update_workflow_no_mutation [(0, JVal.vstr "x")] 0 "p" 5 1
    [(0, JVal.vstr "x"), (1, JVal.vstr "x")] 1 2 (by decide) (by decide) (by rfl)
  exact hm.2.2.1

/-! ## Completion tracker (006 client)

The poll loop `wait_for_workflow_completion` (006 client, lines 1183-1535)
together with `check_workflow_status` (lines 741-864) and `get_queue_status`
(lines 1115-1181).  Each poll iteration is modelled as happening at a single
instant `Obs.now` (all `time.time()` calls of one iteration observe it); the
remote responses of the iteration are the rest of the observation.  Instants
are embedded as integers: the loop only compares time differences against the
integer thresholds 5 and `timeout_minutes * 60`, and feeds the elapsed time
to the integer-valued progress estimates. -/

/-- The `status` sub-object of a history entry. -/
structure PromptStatus where
  completed : Option Bool       -- `status.get("completed")`
  statusStr : Option String     -- `status.get("status_str")`
  error : Option String         -- `status.get("error")`
  deriving DecidableEq, Repr

/-- `history_data[prompt_id]`: the per-prompt history entry.  List fields
hold the key sets of the corresponding JSON dicts. -/
structure PromptData where
  status : Option PromptStatus
  outputs : Option (List String)
  executing : Option (List String)
  promptKeys : Option (List String)
  deriving DecidableEq, Repr

/-- The JSON body of a 200 response from `/history/{prompt_id}`. -/
structure HistoryData where
  promptEntry : Option PromptData   -- entry under the prompt id key
  topError : Option String          -- top-level "error" entry
  topOutputs : Option (List String)
  topExecuting : Option (List String)
  topPromptKeys : Option (List String)
  deriving DecidableEq, Repr

/-- Outcome of the `/history/{prompt_id}` GET. -/
inductive HistResp where
  | ok (h : HistoryData)
  | httpErr (code : ℕ) (text : String)
  | exn (msg : String)
  deriving DecidableEq, Repr

/-- `prompt_data["status"].get("completed") == True`. -/
def statusCompleted (pd : PromptData) : Bool :=
  match pd.status with
  | some st => st.completed = some true
  | none => false

/-- `prompt_data["status"].get("status_str") == "error"`. -/
def statusStrIsError (pd : PromptData) : Bool :=
  match pd.status with
  | some st => st.statusStr = some "error"
  | none => false

/-- `prompt_data["status"].get("error", "Unknown error")`. -/
def statusErrMsg (pd : PromptData) : String :=
  (pd.status.bind (·.error)).getD "Unknown error"

/-- `str.startswith(pre)` on the character list. -/
def strStartsWith (pre s : String) : Bool :=
  pre.toList.isPrefixOf s.toList

/-- Lines 779-856 of `check_workflow_status`: the part reached when the
per-prompt entry did not decide the status. -/
def checkRest (h : HistoryData) : Bool × Option HistoryData × Option String :=
  match h.topError with
  | some e => (true, some h, some e)
  | none =>
      if "30" ∈ h.topOutputs.getD [] then (true, some h, none)
      else
        let executedSrc :=
          match h.promptEntry with
          | some pd =>
              match pd.outputs with
              | some os => os
              | none => h.topOutputs.getD []
          | none => h.topOutputs.getD []
        let executedNodes := executedSrc.filter (fun nid => ! strStartsWith "$" nid)
        (executedNodes.contains "30", some h, none)

/-- `ComfyUIClient.check_workflow_status` (006 client, lines 741-864).
Returns `(is_complete, history_data, error_message)`. -/
def check_workflow_status : HistResp → Bool × Option HistoryData × Option String
  | .exn m => (false, none, some m)
  | .httpErr code _ => (false, none, some ("API error: " ++ toString code))
  | .ok h =>
      match h.promptEntry with
      | some pd =>
          if statusCompleted pd then (true, some h, none)
          else if statusStrIsError pd then
            (false, some h, some ("Error: " ++ statusErrMsg pd))
          else if "30" ∈ pd.outputs.getD [] then (true, some h, none)
          else checkRest h
      | none => checkRest h

/-- The queue snapshot (`/prompt` GET body): the prompt ids found at index 1
of the `queue_running` / `queue_pending` items, plus the optional progress
object. -/
structure ProgressData where
  value : Option ℚ
  maxValue : Option ℚ
  node : Option String
  deriving DecidableEq, Repr

/-- The JSON body of a 200 response from `/prompt`; `none` models a non-200
response or an exception (both return the default queue info). -/
structure QueueData where
  queueRunning : List String
  queuePending : List String
  progress : Option ProgressData
  deriving DecidableEq, Repr

/-- The dictionary assembled by `get_queue_status`. -/
structure QueueInfo where
  queuePosition : Option ℕ := none
  queueRemaining : Option ℕ := none
  queueSize : ℕ := 0
  queueRunning : Bool := false
  isInQueue : Bool := false
  currentNode : Option String := none   -- `queue_details["current_node"]`
  deriving DecidableEq, Repr

/-- `ComfyUIClient.get_queue_status` (006 client, lines 1115-1181). -/
def get_queue_status (promptId : String) (resp : Option QueueData) : QueueInfo :=
  match resp with
  | none => {}
  | some qd =>
      let qi1 : QueueInfo :=
        if promptId ∈ qd.queueRunning then
          { queuePosition := some 0, queueRunning := true, isInQueue := true }
        else {}
      let qi2 : QueueInfo :=
        if ¬ qi1.isInQueue then
          let base := { qi1 with queueSize := qi1.queueSize + qd.queuePending.length }
          match qd.queuePending.findIdx? (· = promptId) with
          | some idx =>
              { base with queuePosition := some (idx + 1),
                          queueRemaining := some (idx + 1), isInQueue := true }
          | none => base
        else qi1
      if qi2.queueRunning then
        match qd.progress with
        | some pr => { qi2 with currentNode := pr.node }
        | none => qi2
      else qi2

/-- The `node_descriptions` table (006 client, lines 1212-1224). -/
def nodeDescriptions : String → Option String
  | "11" => some "Loading T5 encoder model"
  | "16" => some "Encoding text prompt"
  | "37" => some "Preparing latent space"
  | "39" => some "Setting up block swap"
  | "22" => some "Loading video model"
  | "38" => some "Loading VAE model"
  | "52" => some "Configuring tea cache"
  | "55" => some "Setting up video enhancement"
  | "27" => some "Generating frames with sampler"
  | "28" => some "Decoding video frames"
  | "30" => some "Combining frames into video"
  | _ => none

/-- The `stage_percentages` table (006 client, lines 1242-1254; the
`progress_milestones` table holds the same values). -/
def stagePercentages : String → Option Int
  | "11" => some 5
  | "16" => some 10
  | "37" => some 15
  | "39" => some 20
  | "22" => some 25
  | "38" => some 30
  | "52" => some 35
  | "55" => some 40
  | "27" => some 50
  | "28" => some 85
  | "30" => some 95
  | _ => none

/-- One message passed to `status_callback`. -/
inductive WaitEvent where
  | complete                              -- "100% - Complete"
  | queuedPos (pos size : ℕ)              -- "0% - Queued: Position p of s"
  | processing (pct : Int) (desc : String)  -- "<pct>% - ..." progress updates
  | completedNode (pct : Int) (desc : String) -- "<pct>% - Completed: ..."
  | finalizing                            -- "95% - Finalizing"
  | errorMsg (msg : String)               -- "Error: ..."
  deriving DecidableEq, Repr

/-- The percentage displayed by an event (error messages carry none). -/
def WaitEvent.pct : WaitEvent → Option Int
  | .complete => some 100
  | .queuedPos _ _ => some 0
  | .processing p _ => some p
  | .completedNode p _ => some p
  | .finalizing => some 95
  | .errorMsg _ => none

/-- The three distinct exits of the poll loop: line 1291/1316/1473 success,
line 1450 engine-reported error, line 1281 timeout.  The Python return value
is `outcomeBool`. -/
inductive WaitOutcome where
  | completed
  | errored
  | timedOut
  deriving DecidableEq, Repr

/-- The `bool` actually returned by `wait_for_workflow_completion`. -/
def outcomeBool : WaitOutcome → Bool
  | .completed => true
  | .errored => false
  | .timedOut => false

/-- The loop-local mutable state of `wait_for_workflow_completion`. -/
structure WaitState where
  checkInterval : ℚ
  lastUpdateTime : ℤ
  lastQueueCheckTime : ℤ
  knownExecutedNodes : List String
  promptLeftQueue : Bool
  showedFinalizing : Bool
  consecutiveNotInQueue : ℕ
  lastNodeExecuting : Option String
  reportedNodes : List String
  deriving DecidableEq, Repr

/-- Initial state (lines 1199-1274): intervals and timestamps as in the
source (`last_update_time = last_queue_check_time = 0`). -/
def initWaitState : WaitState :=
  { checkInterval := 5
    lastUpdateTime := 0
    lastQueueCheckTime := 0
    knownExecutedNodes := []
    promptLeftQueue := false
    showedFinalizing := false
    consecutiveNotInQueue := 0
    lastNodeExecuting := none
    reportedNodes := [] }

/-- One poll iteration's observations: the instant it runs at, the
`/history` response, and the `/prompt` queue response (used only when the
queue check fires). -/
structure Obs where
  now : ℤ
  hist : HistResp
  queue : Option QueueData
  deriving DecidableEq, Repr

/-- `progress_interval = 5` (line 1259). -/
def progressInterval : ℤ := 5

/-- `queue_check_interval = 5.0` (line 1202). -/
def queueCheckInterval : ℤ := 5

/-- `required_not_in_queue = 5` (line 1265). -/
def requiredNotInQueue : ℕ := 5

/-- The frame-generation progress estimate for node "27"
(lines 1390-1397, 1488-1494, 1514-1519): `40 + min(45, int((t-60)/240*45))`
once generation time is positive, else the stage value. -/
def frameGenPct (elapsed : ℤ) (sp : Int) : Int :=
  if 0 < elapsed - 60 then
    40 + min 45 (pyInt (((elapsed : ℚ) - 60) / 240 * 45))
  else sp

/-- The outputs dict keys seen by the loop body (lines 1295-1303). -/
def obsOutputs (histOpt : Option HistoryData) : List String :=
  match histOpt.bind (·.promptEntry) with
  | some pd =>
      match pd.outputs with
      | some os => os
      | none => (histOpt.bind (·.topOutputs)).getD []
  | none => (histOpt.bind (·.topOutputs)).getD []

/-- The executing list seen by the loop body (lines 1305-1309). -/
def obsExecuting (histOpt : Option HistoryData) : List String :=
  match histOpt.bind (·.promptEntry) with
  | some pd =>
      match pd.executing with
      | some ex => ex
      | none => (histOpt.bind (·.topExecuting)).getD []
  | none => (histOpt.bind (·.topExecuting)).getD []

/-- Parse a digit string (`int(x)`, used only under an `isdigit` guard). -/
def strToNat (s : String) : ℕ :=
  s.foldl (fun a c => a * 10 + (c.toNat - 48)) 0

/-- `max(new_completed, key=lambda x: int(x) if x.isdigit() else 0)`
(line 1338): first maximum in iteration order. -/
def latestOf : List String → String
  | [] => ""
  | x :: xs =>
      xs.foldl (fun b n =>
        if (if pyIsDigit b then strToNat b else 0) <
            (if pyIsDigit n then strToNat n else 0) then n else b) x

/-- The progress-summary block (lines 1318-1345): when outputs are present
and the progress gate is open, report the newest completed node at the
highest completed stage percentage. -/
def progressSummaryBlock (s : WaitState) (o : Obs) (outputs : List String) :
    List WaitEvent × WaitState :=
  if outputs ≠ [] ∧ progressInterval < o.now - s.lastUpdateTime then
    let executedNodes := outputs.filter pyIsDigit
    let completedPct := executedNodes.foldl
      (fun acc n => match stagePercentages n with
        | some p => max acc p
        | none => acc) 0
    let newCompleted := executedNodes.filter (fun n => n ∉ s.reportedNodes)
    if newCompleted ≠ [] then
      let latest := latestOf newCompleted
      let desc := (nodeDescriptions latest).getD ("Step " ++ latest)
      ([.completedNode completedPct desc],
        { s with reportedNodes := s.reportedNodes ++ newCompleted,
                 lastUpdateTime := o.now })
    else ([], s)
  else ([], s)

/-- The running-branch progress computation (lines 1372-1415): pick the
percentage from the current node's stage entry (with the frame-generation
estimate for node "27"), else the time-based estimate `min(90, ...)`. -/
def runningBranch (s : WaitState) (o : Obs) (qi : QueueInfo) (elapsed : ℤ) :
    List WaitEvent × WaitState :=
  match qi.currentNode with
  | some c =>
      let s1 := { s with lastNodeExecuting := some c }
      let pctOpt : Option Int :=
        (stagePercentages c).map (fun sp => if c = "27" then frameGenPct elapsed sp else sp)
      let pct := pctOpt.getD (min 90 (pyInt ((elapsed : ℚ) / 600 * 100)))
      let desc := (nodeDescriptions c).getD "Processing"
      if progressInterval < o.now - s1.lastUpdateTime then
        ([.processing pct desc], { s1 with lastUpdateTime := o.now })
      else ([], s1)
  | none =>
      let pct := min 90 (pyInt ((elapsed : ℚ) / 600 * 100))
      if progressInterval < o.now - s.lastUpdateTime then
        ([.processing pct "Processing"], { s with lastUpdateTime := o.now })
      else ([], s)

/-- The queue-check block (lines 1347-1443).  The boolean result is the
Python `continue` of the pending/running branches (skipping the rest of the
iteration including the interval growth). -/
def queueCheckBlock (promptId : String) (s : WaitState) (o : Obs)
    (outputs executing : List String) (elapsed : ℤ) :
    List WaitEvent × WaitState × Bool :=
  if ¬ s.promptLeftQueue ∧ queueCheckInterval < o.now - s.lastQueueCheckTime then
    let s0 := { s with lastQueueCheckTime := o.now }
    let qi := get_queue_status promptId o.queue
    if qi.isInQueue then
      let s1 := { s0 with consecutiveNotInQueue := 0 }
      match qi.queuePosition with
      | some p =>
          if 0 < p then
            ([.queuedPos p qi.queueSize], s1, true)
          else if qi.queueRunning then
            let r := runningBranch s1 o qi elapsed
            (r.1, r.2, true)
          else ([], s1, false)
      | none =>
          if qi.queueRunning then
            let r := runningBranch s1 o qi elapsed
            (r.1, r.2, true)
          else ([], s1, false)
    else
      let c1 := s0.consecutiveNotInQueue + 1
      let c2 := if executing ≠ [] then 0 else c1
      let s1 := { s0 with consecutiveNotInQueue := c2 }
      if requiredNotInQueue ≤ c2 ∧ outputs ≠ [] then
        let s2 := { s1 with promptLeftQueue := true }
        if ¬ s1.showedFinalizing then
          ([.finalizing], { s2 with showedFinalizing := true }, false)
        else ([], s2, false)
      else ([], s1, false)
  else ([], s, false)

/-- The body of the executing-nodes progress loop (lines 1477-1501), one
node id at a time. -/
def executingStep (o : Obs) (elapsed : ℤ)
    (acc : List WaitEvent × WaitState) (nid : String) :
    List WaitEvent × WaitState :=
  if pyIsDigit nid then
    let st1 := { acc.2 with lastNodeExecuting := some nid }
    match nodeDescriptions nid with
    | some desc =>
        if progressInterval < o.now - st1.lastUpdateTime then
          let pct0 : Int := (stagePercentages nid).getD 50
          let pct := if nid = "27" then frameGenPct elapsed pct0 else pct0
          (acc.1 ++ [.processing pct desc],
            { st1 with lastUpdateTime := o.now })
        else (acc.1, st1)
    | none => (acc.1, st1)
  else acc

/-- The executing-nodes progress block (lines 1476-1501). -/
def executingBlock (s : WaitState) (o : Obs) (executing : List String)
    (elapsed : ℤ) : List WaitEvent × WaitState :=
  executing.foldl (executingStep o elapsed) ([], s)

/-- The time-based fallback progress block (lines 1503-1531). -/
def timeFallbackBlock (s : WaitState) (o : Obs) (elapsed : ℤ) :
    List WaitEvent × WaitState :=
  if progressInterval < o.now - s.lastUpdateTime then
    let pctOpt : Option Int :=
      match s.lastNodeExecuting with
      | some ln =>
          if ln ≠ "" then
            (stagePercentages ln).map
              (fun sp => if ln = "27" then frameGenPct elapsed sp else sp)
          else none
      | none => none
    let pct := pctOpt.getD (min 90 (pyInt ((elapsed : ℚ) / 600 * 100)))
    let desc :=
      match s.lastNodeExecuting with
      | some ln => if ln ≠ "" then (nodeDescriptions ln).getD "Processing"
                   else "Processing"
      | none => "Processing"
    ([.processing pct desc], { s with lastUpdateTime := o.now })
  else ([], s)

/-- `error_msg and "Error:" in error_msg` (line 1446). -/
def errorHit : Option String → Bool
  | some m => m ≠ "" && strContains "Error:" m
  | none => false

/-- One iteration of the `while True` poll loop of
`wait_for_workflow_completion` (006 client, lines 1276-1535).  Returns the
events passed to `status_callback`, the loop state at the end of the
iteration (its value at the `return` for exiting iterations), and the exit
taken, if any. -/
def waitStep (promptId : String) (timeoutSeconds t0 : ℤ) (s : WaitState)
    (o : Obs) : List WaitEvent × WaitState × Option WaitOutcome :=
  let elapsed := o.now - t0
  if timeoutSeconds < elapsed then ([], s, some .timedOut)
  else
    let r := check_workflow_status o.hist
    let isComplete := r.1
    let histOpt := r.2.1
    let errMsg := r.2.2
    if isComplete then ([.complete], s, some .completed)
    else
      let outputs := obsOutputs histOpt
      let executing := obsExecuting histOpt
      if "30" ∈ outputs then ([.complete], s, some .completed)
      else
        let p1 := progressSummaryBlock s o outputs
        let q := queueCheckBlock promptId p1.2 o outputs executing elapsed
        if q.2.2 then (p1.1 ++ q.1, q.2.1, none)       -- `continue`
        else
          if errorHit errMsg then
            (p1.1 ++ q.1 ++ [.errorMsg ("Error: " ++ errMsg.getD "")],
              q.2.1, some .errored)
          else
            let s2 := q.2.1
            let p3 :=
              if outputs ≠ [] then
                let executedNodes := outputs.filter pyIsDigit
                let s3 := { s2 with knownExecutedNodes := executedNodes }
                if "30" ∈ executedNodes then (([.complete] : List WaitEvent), s3, true)
                else ([], s3, false)
              else ([], s2, false)
            if p3.2.2 then (p1.1 ++ q.1 ++ p3.1, p3.2.1, some .completed)
            else
              let p4 := executingBlock p3.2.1 o executing elapsed
              let p5 := timeFallbackBlock p4.2 o elapsed
              let s6 := { p5.2 with
                checkInterval := min 8 (p5.2.checkInterval * (21 / 20)) }
              (p1.1 ++ q.1 ++ p3.1 ++ p4.1 ++ p5.1, s6, none)

/-- Run the poll loop over a list of per-iteration observations, collecting
all callback events and the exit outcome (none: observations exhausted with
the loop still running). -/
def runWait (promptId : String) (timeoutSeconds t0 : ℤ) :
    WaitState → List Obs → List WaitEvent × Option WaitOutcome
  | _, [] => ([], none)
  | s, o :: rest =>
      match waitStep promptId timeoutSeconds t0 s o with
      | (evts, _, some r) => (evts, some r)
      | (evts, s', none) =>
          let t := runWait promptId timeoutSeconds t0 s' rest
          (evts ++ t.1, t.2)

/-- The executed iterations of the poll loop: for each iteration actually
run, the state it started from, its observation, and the state it ended
with. -/
def runTrace (promptId : String) (timeoutSeconds t0 : ℤ) :
    WaitState → List Obs → List (WaitState × Obs × WaitState)
  | _, [] => []
  | s, o :: rest =>
      match waitStep promptId timeoutSeconds t0 s o with
      | (_, s', some _) => [(s, o, s')]
      | (_, s', none) => (s, o, s') :: runTrace promptId timeoutSeconds t0 s' rest

/-! #### Observation-level signals

Predicates on a single poll observation, read off `check_workflow_status`
and the raw history body: they name the evidence the loop can exit on. -/

/-- The history body of a successful `/history` GET (`none` for a non-200
response or an exception). -/
def histOf : HistResp → Option HistoryData
  | .ok h => some h
  | _ => none

/-- Node id "30" appears among the recorded outputs of the poll: in the
outputs dict the loop body reads (`obsOutputs`), or in the top-level
outputs dict that `check_workflow_status` also consults. -/
def node30Observed (o : Obs) : Bool :=
  match o.hist with
  | .ok h =>
      decide ("30" ∈ obsOutputs (some h)) || decide ("30" ∈ h.topOutputs.getD [])
  | _ => false

/-- The per-prompt status of the poll explicitly reports `completed`. -/
def statusReportedCompleted (o : Obs) : Bool :=
  match o.hist with
  | .ok h =>
      match h.promptEntry with
      | some pd => statusCompleted pd
      | none => false
  | _ => false

/-- The history body of the poll carries a top-level "error" entry
(which `check_workflow_status` line 812 reports as completion). -/
def topErrorPresent (o : Obs) : Bool :=
  match o.hist with
  | .ok h => h.topError.isSome
  | _ => false

/-- The poll observation lets the loop exit for a non-timeout reason:
`check_workflow_status` reports completion, node "30" is in the outputs the
loop reads, or the error message contains "Error:". -/
def terminalSignal (o : Obs) : Bool :=
  (check_workflow_status o.hist).1
    || decide ("30" ∈ obsOutputs (check_workflow_status o.hist).2.1)
    || errorHit (check_workflow_status o.hist).2.2

/-! #### Queue-check classification

Each executed loop iteration either skips the queue check (gate closed,
prompt already marked as having left the queue, or the iteration exited
before reaching it), finds the prompt in the queue, or finds it absent —
with or without executing-node evidence. -/

/-- How the queue check of one iteration went. -/
inductive QCheck where
  | skipped
  | found
  | notFoundExec
  | notFoundClean
  deriving DecidableEq, Repr

/-- Classify the queue check of the iteration run from state `s` on
observation `o` (mirrors the branch structure of `waitStep`). -/
def qcheckClass (promptId : String) (timeoutSeconds t0 : ℤ)
    (s : WaitState) (o : Obs) : QCheck :=
  if timeoutSeconds < o.now - t0 then .skipped
  else if (check_workflow_status o.hist).1 then .skipped
  else if "30" ∈ obsOutputs (check_workflow_status o.hist).2.1 then .skipped
  else if s.promptLeftQueue ∨ ¬ queueCheckInterval < o.now - s.lastQueueCheckTime then .skipped
  else if (get_queue_status promptId o.queue).isInQueue then .found
  else if obsExecuting (check_workflow_status o.hist).2.1 ≠ [] then .notFoundExec
  else .notFoundClean

/-- The value of `consecutive_not_in_queue` after processing a chronological
list of queue-check classifications, starting from `k`: unchanged on a
skipped check, reset to 0 on a found or executing-evidence check,
incremented on a clean not-found check. -/
def counterAfter (k : ℕ) (cs : List QCheck) : ℕ :=
  cs.foldl
    (fun a c =>
      match c with
      | .skipped => a
      | .found => 0
      | .notFoundExec => 0
      | .notFoundClean => a + 1) k

/-- A bounded status percentage: at most 95. -/
def pctLe (e : WaitEvent) : Prop :=
  ∀ n : Int, e.pct = some n → n ≤ 95

theorem waitStep_of_timeout (p : String) (ts t0 : ℤ) (s : WaitState) (o : Obs)
    (h : ts < o.now - t0) :
    waitStep p ts t0 s o = ([], s, some .timedOut) := by
  simp only [waitStep]
  rw [if_pos h]

theorem checkRest_snd (h : HistoryData) : (checkRest h).2.1 = some h := by
  unfold checkRest
  split
  · rfl
  · split <;> rfl

theorem check_snd (hr : HistResp) :
    (check_workflow_status hr).2.1 = histOf hr := by
  cases hr with
  | exn m => rfl
  | httpErr c t => rfl
  | ok h =>
      simp only [check_workflow_status, histOf]
      split
      · split_ifs <;> first | rfl | exact checkRest_snd h
      · exact checkRest_snd h

theorem stagePercentages_le (n : String) (p : Int)
    (h : stagePercentages n = some p) : p ≤ 95 := by
  unfold stagePercentages at h
  split at h <;> (try simp_all) <;> omega

theorem completedPct_le (l : List String) (a : Int) (ha : a ≤ 95) :
    l.foldl
      (fun acc n =>
        match stagePercentages n with
        | some p => max acc p
        | none => acc) a ≤ 95 := by
  induction l generalizing a with
  | nil => simpa using ha
  | cons x xs ih =>
      simp only [List.foldl_cons]
      cases hx : stagePercentages x with
      | none => exact ih a ha
      | some p =>
          exact ih _ (max_le ha (stagePercentages_le x p hx))

theorem frameGenPct_le (e : ℤ) (sp : Int) (hsp : sp ≤ 95) :
    frameGenPct e sp ≤ 95 := by
  unfold frameGenPct
  split
  · have h1 : min 45 (pyInt (((e : ℚ) - 60) / 240 * 45)) ≤ 45 := min_le_left _ _
    omega
  · exact hsp

theorem progressSummaryBlock_events (s : WaitState) (o : Obs)
    (outs : List String) :
    ∀ e ∈ (progressSummaryBlock s o outs).1, pctLe e := by
  intro e he
  unfold progressSummaryBlock at he
  split at he
  · dsimp only at he
    split at he
    · simp only [List.mem_singleton] at he
      subst he
      intro n hn
      simp only [WaitEvent.pct, Option.some.injEq] at hn
      subst hn
      exact completedPct_le _ 0 (by omega)
    · simp at he
  · simp at he

theorem runningBranch_events (s : WaitState) (o : Obs) (qi : QueueInfo)
    (el : ℤ) :
    ∀ e ∈ (runningBranch s o qi el).1, pctLe e := by
  intro e he
  unfold runningBranch at he
  split at he
  · rename_i c heq
    dsimp only at he
    by_cases hg : progressInterval < o.now - s.lastUpdateTime
    · rw [if_pos hg] at he
      simp only [List.mem_singleton] at he
      subst he
      intro n hn
      simp only [WaitEvent.pct, Option.some.injEq] at hn
      subst hn
      cases hsp : stagePercentages c with
      | none =>
          have h1 : min (90 : Int) (pyInt ((el : ℚ) / 600 * 100)) ≤ 90 :=
            min_le_left _ _
          simp only [Option.map_none', Option.getD_none]
          omega
      | some sp =>
          simp only [hsp, Option.map_some', Option.getD_some]
          split
          · exact frameGenPct_le _ _ (stagePercentages_le c sp hsp)
          · exact stagePercentages_le c sp hsp
    · rw [if_neg hg] at he
      simp at he
  · dsimp only at he
    by_cases hg : progressInterval < o.now - s.lastUpdateTime
    · rw [if_pos hg] at he
      simp only [List.mem_singleton] at he
      subst he
      intro n hn
      simp only [WaitEvent.pct, Option.some.injEq] at hn
      subst hn
      have h1 : min (90 : Int) (pyInt ((el : ℚ) / 600 * 100)) ≤ 90 :=
        min_le_left _ _
      omega
    · rw [if_neg hg] at he
      simp at he

theorem queueCheckBlock_events (p : String) (s : WaitState) (o : Obs)
    (outs ex : List String) (el : ℤ) :
    ∀ e ∈ (queueCheckBlock p s o outs ex el).1, pctLe e := by
  intro e he
  unfold queueCheckBlock at he
  split at he
  · dsimp only at he
    split at he
    · split at he
      · split at he
        · simp only [List.mem_singleton] at he
          subst he
          intro n hn
          simp only [WaitEvent.pct, Option.some.injEq] at hn
          omega
        · split at he
          · dsimp only at he
            exact runningBranch_events _ o _ el e he
          · simp at he
      · split at he
        · dsimp only at he
          exact runningBranch_events _ o _ el e he
        · simp at he
    · split at he
      · split at he
        · split at he
          · simp only [List.mem_singleton] at he
            subst he
            intro n hn
            simp only [WaitEvent.pct, Option.some.injEq] at hn
            omega
          · simp at he
        · simp at he
      · split at he
        · split at he
          · simp only [List.mem_singleton] at he
            subst he
            intro n hn
            simp only [WaitEvent.pct, Option.some.injEq] at hn
            omega
          · simp at he
        · simp at he
  · simp at he

theorem executingStep_events (o : Obs) (el : ℤ)
    (acc : List WaitEvent × WaitState) (nid : String)
    (hacc : ∀ e ∈ acc.1, pctLe e) :
    ∀ e ∈ (executingStep o el acc nid).1, pctLe e := by
  intro e he
  unfold executingStep at he
  split at he
  · dsimp only at he
    split at he
    · split at he
      · rename_i desc hdesc hg
        rw [List.mem_append] at he
        rcases he with he | he
        · exact hacc e he
        · simp only [List.mem_singleton] at he
          subst he
          intro n hn
          simp only [WaitEvent.pct, Option.some.injEq] at hn
          subst hn
          have hb : (stagePercentages nid).getD 50 ≤ 95 := by
            cases hsp : stagePercentages nid with
            | none => simp
            | some sp =>
                simpa using stagePercentages_le nid sp hsp
          split
          · exact frameGenPct_le _ _ hb
          · exact hb
      · exact hacc e he
    · exact hacc e he
  · exact hacc e he

theorem foldl_executingStep_events (o : Obs) (el : ℤ) :
    ∀ (l : List String) (acc : List WaitEvent × WaitState),
      (∀ e ∈ acc.1, pctLe e) →
      ∀ e ∈ (l.foldl (executingStep o el) acc).1, pctLe e := by
  intro l
  induction l with
  | nil => intro acc hacc; simpa using hacc
  | cons x xs ih =>
      intro acc hacc
      simp only [List.foldl_cons]
      exact ih _ (executingStep_events o el acc x hacc)

theorem executingBlock_events (s : WaitState) (o : Obs)
    (ex : List String) (el : ℤ) :
    ∀ e ∈ (executingBlock s o ex el).1, pctLe e := by
  unfold executingBlock
  exact foldl_executingStep_events o el ex ([], s) (by simp)

theorem timeFallbackBlock_events (s : WaitState) (o : Obs) (el : ℤ) :
    ∀ e ∈ (timeFallbackBlock s o el).1, pctLe e := by
  intro e he
  unfold timeFallbackBlock at he
  split at he
  · dsimp only at he
    simp only [List.mem_singleton] at he
    subst he
    intro n hn
    simp only [WaitEvent.pct, Option.some.injEq] at hn
    subst hn
    have h1 : min (90 : Int) (pyInt ((el : ℚ) / 600 * 100)) ≤ 90 :=
      min_le_left _ _
    cases hln : s.lastNodeExecuting with
    | none =>
        dsimp only
        simp only [Option.getD_none]
        omega
    | some ln =>
        dsimp only
        by_cases hne : ln ≠ ""
        · rw [if_pos hne]
          cases hsp : stagePercentages ln with
          | none => simp only [Option.map_none', Option.getD_none]; omega
          | some sp =>
              simp only [Option.map_some', Option.getD_some]
              split
              · exact frameGenPct_le _ _ (stagePercentages_le ln sp hsp)
              · exact stagePercentages_le ln sp hsp
        · rw [if_neg hne]
          simp only [Option.getD_none]
          omega
  · simp at he

theorem waitStep_events (p : String) (ts t0 : ℤ) (s : WaitState) (o : Obs) :
    ∀ e ∈ (waitStep p ts t0 s o).1, e = WaitEvent.complete ∨ pctLe e := by
  intro e he
  unfold waitStep at he
  dsimp only at he
  split at he
  · simp at he
  · split at he
    · left; simpa using he
    · split at he
      · left; simpa using he
      · split at he
        · simp only [List.mem_append] at he
          rcases he with he | he
          · exact Or.inr (progressSummaryBlock_events _ _ _ e he)
          · exact Or.inr (queueCheckBlock_events _ _ _ _ _ _ e he)
        · split at he
          · simp at he
            rcases he with he | he | he
            · exact Or.inr (progressSummaryBlock_events _ _ _ e he)
            · exact Or.inr (queueCheckBlock_events _ _ _ _ _ _ e he)
            · subst he
              right
              intro n hn
              simp [WaitEvent.pct] at hn
          · split at he
            · split at he
              · simp at he
                rcases he with he | he | he
                · exact Or.inr (progressSummaryBlock_events _ _ _ e he)
                · exact Or.inr (queueCheckBlock_events _ _ _ _ _ _ e he)
                · exact Or.inl he
              · simp at he
                rcases he with he | he | he | he
                · exact Or.inr (progressSummaryBlock_events _ _ _ e he)
                · exact Or.inr (queueCheckBlock_events _ _ _ _ _ _ e he)
                · exact Or.inr (executingBlock_events _ _ _ _ e he)
                · exact Or.inr (timeFallbackBlock_events _ _ _ e he)
            · simp at he
              rcases he with he | he | he | he
              · exact Or.inr (progressSummaryBlock_events _ _ _ e he)
              · exact Or.inr (queueCheckBlock_events _ _ _ _ _ _ e he)
              · exact Or.inr (executingBlock_events _ _ _ _ e he)
              · exact Or.inr (timeFallbackBlock_events _ _ _ e he)

theorem runWait_events (p : String) (ts t0 : ℤ) :
    ∀ (L : List Obs) (s : WaitState),
      ∀ e ∈ (runWait p ts t0 s L).1, e = WaitEvent.complete ∨ pctLe e := by
  intro L
  induction L with
  | nil => intro s e he; simp [runWait] at he
  | cons o rest ih =>
      intro s e he
      rw [runWait] at he
      rcases hstep : waitStep p ts t0 s o with ⟨evts, s', out⟩
      rw [hstep] at he
      cases out with
      | some r =>
          exact waitStep_events p ts t0 s o e (by rw [hstep]; simpa using he)
      | none =>
          dsimp only at he
          rw [List.mem_append] at he
          rcases he with he | he
          · exact waitStep_events p ts t0 s o e (by rw [hstep]; simpa using he)
          · exact ih s' e he

/-! #### Exit evidence and termination of the poll loop -/

theorem checkRest_true_evidence (hd : HistoryData)
    (hc : (checkRest hd).1 = true) :
    hd.topError.isSome = true ∨ "30" ∈ hd.topOutputs.getD []
      ∨ "30" ∈ obsOutputs (some hd) := by
  unfold checkRest at hc
  split at hc
  · rename_i e he
    left
    simp [he]
  · split at hc
    · rename_i hm
      right; left
      exact hm
    · right; right
      dsimp only at hc
      have hm := (List.mem_filter.mp (List.mem_of_elem_eq_true hc)).1
      cases hpe : hd.promptEntry with
      | some pd =>
          rw [hpe] at hm
          dsimp only at hm
          cases hos : pd.outputs with
          | some os =>
              rw [hos] at hm
              simp only [obsOutputs, Option.bind, hpe, hos]
              exact hm
          | none =>
              rw [hos] at hm
              simp only [obsOutputs, Option.bind, hpe, hos]
              simpa using hm
      | none =>
          rw [hpe] at hm
          dsimp only at hm
          simp only [obsOutputs, Option.bind, hpe]
          simpa using hm
theorem check_true_evidence (o : Obs)
    (hc : (check_workflow_status o.hist).1 = true) :
    node30Observed o = true ∨ statusReportedCompleted o = true
      ∨ topErrorPresent o = true := by
  cases hh : o.hist with
  | exn m => rw [hh] at hc; simp [check_workflow_status] at hc
  | httpErr c t => rw [hh] at hc; simp [check_workflow_status] at hc
  | ok hd =>
      rw [hh] at hc
      unfold check_workflow_status at hc
      dsimp only at hc
      have hrest : (checkRest hd).1 = true →
          node30Observed o = true ∨ statusReportedCompleted o = true
            ∨ topErrorPresent o = true := by
        intro hr
        rcases checkRest_true_evidence hd hr with he | hm | hm
        · right; right
          simp [topErrorPresent, hh, he]
        · left
          simp only [node30Observed, hh]
          have : decide ("30" ∈ hd.topOutputs.getD []) = true := by
            exact decide_eq_true hm
          simp [this]
        · left
          simp only [node30Observed, hh]
          have : decide ("30" ∈ obsOutputs (some hd)) = true := by
            exact decide_eq_true hm
          simp [this]
      split at hc
      · rename_i pd hpe
        split at hc
        · rename_i hsc
          right; left
          simp only [statusReportedCompleted, hh, hpe]
          exact hsc
        · split at hc
          · simp at hc
          · split at hc
            · rename_i hm
              left
              cases hos : pd.outputs with
              | some os =>
                  rw [hos] at hm
                  simp only [Option.getD_some] at hm
                  simp only [node30Observed, hh]
                  have : decide ("30" ∈ obsOutputs (some hd)) = true := by
                    refine decide_eq_true ?h
                    simp only [obsOutputs, Option.bind, hpe, hos]
                    exact hm
                  simp [this]
              | none =>
                  rw [hos] at hm
                  simp at hm
            · exact hrest hc
      · exact hrest hc
theorem waitStep_completed_evidence (p : String) (ts t0 : ℤ) (s : WaitState)
    (o : Obs) (h : (waitStep p ts t0 s o).2.2 = some WaitOutcome.completed) :
    node30Observed o = true ∨ statusReportedCompleted o = true
      ∨ topErrorPresent o = true := by
  by_cases hto : ts < o.now - t0
  · rw [waitStep_of_timeout p ts t0 s o hto] at h
    simp at h
  · unfold waitStep at h
    dsimp only at h
    rw [if_neg hto] at h
    by_cases hc : (check_workflow_status o.hist).1 = true
    · exact check_true_evidence o hc
    · rw [if_neg (by simpa using hc)] at h
      by_cases h30 : "30" ∈ obsOutputs (check_workflow_status o.hist).2.1
      · left
        cases hh : o.hist with
        | exn m => rw [hh, check_snd] at h30; simp [histOf, obsOutputs] at h30
        | httpErr c t => rw [hh, check_snd] at h30; simp [histOf, obsOutputs] at h30
        | ok hd =>
            rw [hh, check_snd] at h30
            simp only [histOf] at h30
            simp only [node30Observed, hh]
            have : decide ("30" ∈ obsOutputs (some hd)) = true := decide_eq_true h30
            simp [this]
      · rw [if_neg h30] at h
        split at h
        · simp at h
        · split at h
          · simp at h
          · split at h
            · split at h
              · rename_i hm
                exact absurd (List.mem_filter.mp hm).1 h30
              · simp at h
            · simp at h

theorem runWait_completed_evidence (p : String) (ts t0 : ℤ) :
    ∀ (L : List Obs) (s : WaitState),
      (runWait p ts t0 s L).2 = some WaitOutcome.completed →
      ∃ o ∈ L, node30Observed o = true ∨ statusReportedCompleted o = true
        ∨ topErrorPresent o = true := by
  intro L
  induction L with
  | nil => intro s h; simp [runWait] at h
  | cons o rest ih =>
      intro s h
      rcases hstep : waitStep p ts t0 s o with ⟨evts, s2, out⟩
      rw [runWait, hstep] at h
      cases out with
      | some r =>
          dsimp only at h
          have hr : r = WaitOutcome.completed := Option.some.inj h
          subst hr
          refine ⟨o, by simp, waitStep_completed_evidence p ts t0 s o ?h⟩
          rw [hstep]
      | none =>
          dsimp only at h
          obtain ⟨o2, ho2, hev⟩ := ih s2 h
          exact ⟨o2, by simp [ho2], hev⟩
theorem waitStep_exit_of_no_signal (p : String) (ts t0 : ℤ) (s : WaitState)
    (o : Obs) (hsig : terminalSignal o = false) (r : WaitOutcome)
    (h : (waitStep p ts t0 s o).2.2 = some r) :
    r = WaitOutcome.timedOut ∧ ts < o.now - t0 := by
  simp only [terminalSignal, Bool.or_eq_false_iff, decide_eq_false_iff_not] at hsig
  obtain ⟨⟨hc, h30⟩, herr⟩ := hsig
  by_cases hto : ts < o.now - t0
  · rw [waitStep_of_timeout p ts t0 s o hto] at h
    exact ⟨(Option.some.inj h).symm, hto⟩
  · exfalso
    unfold waitStep at h
    dsimp only at h
    rw [if_neg hto] at h
    rw [if_neg (by simp [hc])] at h
    rw [if_neg h30] at h
    split at h
    · simp at h
    · rw [if_neg (by simp [herr])] at h
      split at h
      · split at h
        · rename_i hm
          exact h30 (List.mem_filter.mp hm).1
        · simp at h
      · simp at h

theorem runWait_isSome_of_exceeded (p : String) (ts t0 : ℤ) :
    ∀ (L : List Obs) (s : WaitState), (∃ o ∈ L, ts < o.now - t0) →
      ((runWait p ts t0 s L).2).isSome = true := by
  intro L
  induction L with
  | nil => intro s h; simp at h
  | cons o rest ih =>
      intro s hex
      rcases hstep : waitStep p ts t0 s o with ⟨evts, s2, out⟩
      rw [runWait, hstep]
      cases out with
      | some r => simp
      | none =>
          dsimp only
          rcases hex with ⟨o2, ho2, hlt⟩
          rcases List.mem_cons.mp ho2 with rfl | hmem
          · rw [waitStep_of_timeout p ts t0 s o2 hlt] at hstep
            simp at hstep
          · exact ih s2 ⟨o2, hmem, hlt⟩

theorem runWait_timedOut_of_no_signal (p : String) (ts t0 : ℤ) :
    ∀ (L : List Obs) (s : WaitState), (∀ o ∈ L, terminalSignal o = false) →
      ∀ r, (runWait p ts t0 s L).2 = some r → r = WaitOutcome.timedOut := by
  intro L
  induction L with
  | nil => intro s _ r h; simp [runWait] at h
  | cons o rest ih =>
      intro s hsig r h
      rcases hstep : waitStep p ts t0 s o with ⟨evts, s2, out⟩
      rw [runWait, hstep] at h
      cases out with
      | some r2 =>
          dsimp only at h
          have hr : r2 = r := Option.some.inj h
          subst hr
          exact (waitStep_exit_of_no_signal p ts t0 s o
            (hsig o (by simp)) r2 (by rw [hstep])).1
      | none =>
          dsimp only at h
          exact ih s2 (fun o2 ho2 => hsig o2 (by simp [ho2])) r h

theorem now_ge (t0 : ℤ) (f : ℕ → Obs) (h0 : t0 ≤ (f 0).now)
    (hmono : ∀ i, (f i).now + 1 ≤ (f (i + 1)).now) :
    ∀ n : ℕ, t0 + n ≤ (f n).now := by
  intro n
  induction n with
  | zero => simpa using h0
  | succ k ih =>
      have := hmono k
      push_cast
      push_cast at ih
      omega
/-- C9: for every caller timeout budget and every (possibly never-completing)
stream of poll observations whose instants advance by at least one second per
poll, the poll loop of `wait_for_workflow_completion` terminates: running it
over the first `timeout_seconds + 2` observations already returns, and when no
observed poll carried a terminal signal (completion evidence or an engine
error) the exit taken is the timeout failure, an outcome distinct from the
engine-reported-error exit. -/
theorem wait_for_workflow_completion_terminates
    (promptId : String) (timeoutSeconds t0 : ℤ) (f : ℕ → Obs)
    (h0 : t0 ≤ (f 0).now)
    (hmono : ∀ i, (f i).now + 1 ≤ (f (i + 1)).now) :
    ((runWait promptId timeoutSeconds t0 initWaitState
        ((List.range ((timeoutSeconds + 1).toNat + 1)).map f)).2).isSome = true ∧
    ((∀ i < (timeoutSeconds + 1).toNat + 1, terminalSignal (f i) = false) →
      (runWait promptId timeoutSeconds t0 initWaitState
        ((List.range ((timeoutSeconds + 1).toNat + 1)).map f)).2
        = some WaitOutcome.timedOut) := by
  have hexceed : ∃ o ∈ (List.range ((timeoutSeconds + 1).toNat + 1)).map f,
      timeoutSeconds < o.now - t0 := by
    refine ⟨f ((timeoutSeconds + 1).toNat), ?mem, ?lt⟩
    case mem =>
      exact List.mem_map_of_mem f (List.mem_range.mpr (Nat.lt_succ_self _))
    case lt =>
      have h1 := now_ge t0 f h0 hmono ((timeoutSeconds + 1).toNat)
      have h2 : (timeoutSeconds + 1 : ℤ) ≤ ((timeoutSeconds + 1).toNat : ℤ) :=
        Int.self_le_toNat _
      omega
  constructor
  · exact runWait_isSome_of_exceeded promptId timeoutSeconds t0 _ initWaitState hexceed
  · intro hns
    have hsome := runWait_isSome_of_exceeded promptId timeoutSeconds t0 _ initWaitState hexceed
    obtain ⟨r, hr⟩ := Option.isSome_iff_exists.mp hsome
    have hrt : r = WaitOutcome.timedOut := by
      refine runWait_timedOut_of_no_signal promptId timeoutSeconds t0 _ initWaitState ?sig r hr
      intro o ho
      obtain ⟨i, hi, rfl⟩ := List.mem_map.mp ho
      exact hns i (List.mem_range.mp hi)
    rw [hr, hrt]

/-- A never-completing observation stream: empty history at second `i`. -/
def c9obs (i : ℕ) : Obs := ⟨(i : ℤ), .ok ⟨none, none, none, none, none⟩, none⟩

/-- Witness: with a 3-second budget and empty histories the loop times out. -/
theorem wait_for_workflow_completion_terminates_witness :
    (runWait "p" 3 0 initWaitState
        ((List.range (((3 : ℤ) + 1).toNat + 1)).map c9obs)).2
      = some WaitOutcome.timedOut :=
  (wait_for_workflow_completion_terminates "p" 3 0 c9obs (by decide)
    (fun i => by
      show ((i : ℤ)) + 1 ≤ ((i + 1 : ℕ) : ℤ)
      push_cast
      omega)).2 (by decide)

/-- C1 (amended): whenever the poll loop reports success, some polled history
carried node "30" in its recorded outputs, or a status explicitly reporting
completed, or a top-level "error" entry (which `check_workflow_status` treats
as completion - the amendment over the original claim); and every percentage
the loop emits through the status callback, other than the final
"100% - Complete" message itself, is below 100. -/
theorem wait_complete_requires_evidence (promptId : String) (ts t0 : ℤ)
    (s : WaitState) (L : List Obs) :
    ((runWait promptId ts t0 s L).2 = some WaitOutcome.completed →
      ∃ o ∈ L, node30Observed o = true ∨ statusReportedCompleted o = true
        ∨ topErrorPresent o = true) ∧
    ∀ e ∈ (runWait promptId ts t0 s L).1, e ≠ WaitEvent.complete →
      ∀ q : Int, e.pct = some q → q < 100 := by
  constructor
  · exact runWait_completed_evidence promptId ts t0 L s
  · intro e he hne q hq
    rcases runWait_events promptId ts t0 L s e he with h | h
    · exact absurd h hne
    · have := h q hq
      omega

/-- Counterexample to the original C1: a single poll whose history carries
only a top-level "error" entry makes the loop emit "100% - Complete" and
return success, although node "30" never appeared in any recorded outputs and
no status ever reported completed. -/
theorem wait_complete_counterexample :
    (runWait "p" 600 0 initWaitState
        [⟨0, HistResp.ok ⟨none, some "boom", none, none, none⟩, none⟩]).1
      = [WaitEvent.complete] ∧
    (runWait "p" 600 0 initWaitState
        [⟨0, HistResp.ok ⟨none, some "boom", none, none, none⟩, none⟩]).2
      = some WaitOutcome.completed ∧
    (∀ o ∈ ([⟨0, HistResp.ok ⟨none, some "boom", none, none, none⟩, none⟩] : List Obs),
      node30Observed o = false ∧ statusReportedCompleted o = false) := by
  decide

/-- An observation whose per-prompt outputs contain node "30". -/
def c1obs : Obs :=
  ⟨0, HistResp.ok ⟨some ⟨none, some ["30"], none, none⟩, none, none, none, none⟩, none⟩

/-- Witness: a run completed by a node-30 output satisfies both conjuncts. -/
theorem wait_complete_requires_evidence_witness :
    (∃ o ∈ [c1obs], node30Observed o = true ∨ statusReportedCompleted o = true
      ∨ topErrorPresent o = true) ∧
    (∀ e ∈ (runWait "p" 600 0 initWaitState [c1obs]).1,
      e ≠ WaitEvent.complete → ∀ q : Int, e.pct = some q → q < 100) :=
  ⟨(wait_complete_requires_evidence "p" 600 0 initWaitState [c1obs]).1 (by decide),
   (wait_complete_requires_evidence "p" 600 0 initWaitState [c1obs]).2⟩

/-! #### The queue-exit streak invariant -/

theorem progressSummaryBlock_state (s : WaitState) (o : Obs) (outs : List String) :
    (progressSummaryBlock s o outs).2.promptLeftQueue = s.promptLeftQueue ∧
    (progressSummaryBlock s o outs).2.lastQueueCheckTime = s.lastQueueCheckTime ∧
    (progressSummaryBlock s o outs).2.consecutiveNotInQueue = s.consecutiveNotInQueue ∧
    (progressSummaryBlock s o outs).2.showedFinalizing = s.showedFinalizing := by
  unfold progressSummaryBlock
  split
  · dsimp only
    split <;> simp
  · simp

theorem runningBranch_state (s : WaitState) (o : Obs) (qi : QueueInfo) (el : ℤ) :
    (runningBranch s o qi el).2.promptLeftQueue = s.promptLeftQueue ∧
    (runningBranch s o qi el).2.consecutiveNotInQueue = s.consecutiveNotInQueue := by
  unfold runningBranch
  split <;> (dsimp only; split <;> simp)

theorem executingStep_state (o : Obs) (el : ℤ)
    (acc : List WaitEvent × WaitState) (nid : String) :
    (executingStep o el acc nid).2.promptLeftQueue = acc.2.promptLeftQueue ∧
    (executingStep o el acc nid).2.consecutiveNotInQueue = acc.2.consecutiveNotInQueue := by
  unfold executingStep
  split
  · dsimp only
    split
    · split <;> simp
    · simp
  · simp

theorem foldl_executingStep_state (o : Obs) (el : ℤ) :
    ∀ (l : List String) (acc : List WaitEvent × WaitState),
      (l.foldl (executingStep o el) acc).2.promptLeftQueue = acc.2.promptLeftQueue ∧
      (l.foldl (executingStep o el) acc).2.consecutiveNotInQueue
        = acc.2.consecutiveNotInQueue := by
  intro l
  induction l with
  | nil => intro acc; exact ⟨rfl, rfl⟩
  | cons x xs ih =>
      intro acc
      simp only [List.foldl_cons]
      obtain ⟨h1, h2⟩ := ih (executingStep o el acc x)
      obtain ⟨g1, g2⟩ := executingStep_state o el acc x
      exact ⟨h1.trans g1, h2.trans g2⟩

theorem timeFallbackBlock_state (s : WaitState) (o : Obs) (el : ℤ) :
    (timeFallbackBlock s o el).2.promptLeftQueue = s.promptLeftQueue ∧
    (timeFallbackBlock s o el).2.consecutiveNotInQueue = s.consecutiveNotInQueue := by
  unfold timeFallbackBlock
  split <;> simp

theorem queueCheckBlock_counter (p : String) (s : WaitState) (o : Obs)
    (outs ex : List String) (el : ℤ) :
    (queueCheckBlock p s o outs ex el).2.1.consecutiveNotInQueue =
      if ¬ s.promptLeftQueue = true ∧ queueCheckInterval < o.now - s.lastQueueCheckTime then
        if (get_queue_status p o.queue).isInQueue = true then 0
        else if ex ≠ [] then 0 else s.consecutiveNotInQueue + 1
      else s.consecutiveNotInQueue := by
  unfold queueCheckBlock
  split
  · dsimp only
    split
    · split
      · split
        · simp
        · split
          · simp [(runningBranch_state _ o _ el).2]
          · simp
      · split
        · simp [(runningBranch_state _ o _ el).2]
        · simp
    · split
      · split
        · split <;> simp
        · simp
      · split
        · split <;> simp
        · simp
  · simp

theorem queueCheckBlock_flag (p : String) (s : WaitState) (o : Obs)
    (outs ex : List String) (el : ℤ) :
    (queueCheckBlock p s o outs ex el).2.1.promptLeftQueue =
      if ¬ s.promptLeftQueue = true ∧ queueCheckInterval < o.now - s.lastQueueCheckTime then
        if (get_queue_status p o.queue).isInQueue = true then s.promptLeftQueue
        else if requiredNotInQueue ≤ (if ex ≠ [] then 0 else s.consecutiveNotInQueue + 1)
            ∧ outs ≠ [] then true
        else s.promptLeftQueue
      else s.promptLeftQueue := by
  unfold queueCheckBlock
  split
  · dsimp only
    split
    · split
      · split
        · simp
        · split
          · simp [(runningBranch_state _ o _ el).1]
          · simp
      · split
        · simp [(runningBranch_state _ o _ el).1]
        · simp
    · split
      · split
        · split <;> simp
        · simp
      · split
        · split <;> simp
        · simp
  · simp
theorem executingBlock_state (s : WaitState) (o : Obs) (ex : List String)
    (el : ℤ) :
    (executingBlock s o ex el).2.promptLeftQueue = s.promptLeftQueue ∧
    (executingBlock s o ex el).2.consecutiveNotInQueue = s.consecutiveNotInQueue := by
  unfold executingBlock
  simpa using foldl_executingStep_state o el ex ([], s)

theorem waitStep_counter_eq (p : String) (ts t0 : ℤ) (s : WaitState) (o : Obs) :
    (waitStep p ts t0 s o).2.1.consecutiveNotInQueue =
      if ts < o.now - t0 then s.consecutiveNotInQueue
      else if (check_workflow_status o.hist).1 = true then s.consecutiveNotInQueue
      else if "30" ∈ obsOutputs (check_workflow_status o.hist).2.1 then
        s.consecutiveNotInQueue
      else
        (queueCheckBlock p
          (progressSummaryBlock s o (obsOutputs (check_workflow_status o.hist).2.1)).2
          o (obsOutputs (check_workflow_status o.hist).2.1)
          (obsExecuting (check_workflow_status o.hist).2.1)
          (o.now - t0)).2.1.consecutiveNotInQueue := by
  unfold waitStep
  dsimp only
  split
  · simp
  · split
    · simp
    · split
      · simp
      · split
        · simp
        · split
          · simp
          · split
            · split
              · simp
              · simp [executingBlock_state, timeFallbackBlock_state]
            · simp [executingBlock_state, timeFallbackBlock_state]

theorem waitStep_flag_eq (p : String) (ts t0 : ℤ) (s : WaitState) (o : Obs) :
    (waitStep p ts t0 s o).2.1.promptLeftQueue =
      if ts < o.now - t0 then s.promptLeftQueue
      else if (check_workflow_status o.hist).1 = true then s.promptLeftQueue
      else if "30" ∈ obsOutputs (check_workflow_status o.hist).2.1 then
        s.promptLeftQueue
      else
        (queueCheckBlock p
          (progressSummaryBlock s o (obsOutputs (check_workflow_status o.hist).2.1)).2
          o (obsOutputs (check_workflow_status o.hist).2.1)
          (obsExecuting (check_workflow_status o.hist).2.1)
          (o.now - t0)).2.1.promptLeftQueue := by
  unfold waitStep
  dsimp only
  split
  · simp
  · split
    · simp
    · split
      · simp
      · split
        · simp
        · split
          · simp
          · split
            · split
              · simp
              · simp [executingBlock_state, timeFallbackBlock_state]
            · simp [executingBlock_state, timeFallbackBlock_state]
theorem waitStep_counter_class (p : String) (ts t0 : ℤ) (s : WaitState) (o : Obs) :
    (waitStep p ts t0 s o).2.1.consecutiveNotInQueue =
      (match qcheckClass p ts t0 s o with
        | QCheck.skipped => s.consecutiveNotInQueue
        | QCheck.found => 0
        | QCheck.notFoundExec => 0
        | QCheck.notFoundClean => s.consecutiveNotInQueue + 1) := by
  obtain ⟨hg1, hg2, hg3, hg4⟩ :=
    progressSummaryBlock_state s o (obsOutputs (check_workflow_status o.hist).2.1)
  rw [waitStep_counter_eq, queueCheckBlock_counter, hg1, hg2, hg3]
  unfold qcheckClass
  by_cases hA : ts < o.now - t0
  · simp [hA]
  · simp only [if_neg hA]
    by_cases hB : (check_workflow_status o.hist).1 = true
    · simp [hB]
    · simp only [if_neg hB]
      by_cases hC : "30" ∈ obsOutputs (check_workflow_status o.hist).2.1
      · simp [hC]
      · simp only [if_neg hC]
        by_cases hpl : s.promptLeftQueue = true
        · have hL : ¬ (¬ s.promptLeftQueue = true
              ∧ queueCheckInterval < o.now - s.lastQueueCheckTime) := by simp [hpl]
          have hR : s.promptLeftQueue = true
              ∨ ¬ queueCheckInterval < o.now - s.lastQueueCheckTime := Or.inl hpl
          rw [if_neg hL, if_pos hR]
        · by_cases hqt : queueCheckInterval < o.now - s.lastQueueCheckTime
          · have hL : ¬ s.promptLeftQueue = true
                ∧ queueCheckInterval < o.now - s.lastQueueCheckTime := ⟨hpl, hqt⟩
            have hR : ¬ (s.promptLeftQueue = true
                ∨ ¬ queueCheckInterval < o.now - s.lastQueueCheckTime) := by
              simp [hpl, hqt]
            rw [if_pos hL, if_neg hR]
            by_cases hin : (get_queue_status p o.queue).isInQueue = true
            · simp [hin]
            · simp only [if_neg hin]
              by_cases hex : obsExecuting (check_workflow_status o.hist).2.1 ≠ []
              · simp [hex]
              · simp [hex]
          · have hL : ¬ (¬ s.promptLeftQueue = true
                ∧ queueCheckInterval < o.now - s.lastQueueCheckTime) := by simp [hqt]
            have hR : s.promptLeftQueue = true
                ∨ ¬ queueCheckInterval < o.now - s.lastQueueCheckTime := Or.inr hqt
            rw [if_neg hL, if_pos hR]

theorem waitStep_flip (p : String) (ts t0 : ℤ) (s : WaitState) (o : Obs)
    (hold : s.promptLeftQueue = false)
    (hflip : (waitStep p ts t0 s o).2.1.promptLeftQueue = true) :
    qcheckClass p ts t0 s o = QCheck.notFoundClean ∧
    requiredNotInQueue ≤ s.consecutiveNotInQueue + 1 ∧
    obsOutputs (check_workflow_status o.hist).2.1 ≠ [] := by
  obtain ⟨hg1, hg2, hg3, hg4⟩ :=
    progressSummaryBlock_state s o (obsOutputs (check_workflow_status o.hist).2.1)
  rw [waitStep_flag_eq, queueCheckBlock_flag, hg1, hg2, hg3] at hflip
  unfold qcheckClass
  by_cases hA : ts < o.now - t0
  · rw [if_pos hA] at hflip
    rw [hold] at hflip
    exact absurd hflip (by simp)
  · rw [if_neg hA] at hflip
    rw [if_neg hA]
    by_cases hB : (check_workflow_status o.hist).1 = true
    · rw [if_pos hB, hold] at hflip
      exact absurd hflip (by simp)
    · rw [if_neg hB] at hflip
      rw [if_neg hB]
      by_cases hC : "30" ∈ obsOutputs (check_workflow_status o.hist).2.1
      · rw [if_pos hC, hold] at hflip
        exact absurd hflip (by simp)
      · rw [if_neg hC] at hflip
        rw [if_neg hC]
        by_cases hgate : ¬ s.promptLeftQueue = true
            ∧ queueCheckInterval < o.now - s.lastQueueCheckTime
        · rw [if_pos hgate] at hflip
          have hR : ¬ (s.promptLeftQueue = true
              ∨ ¬ queueCheckInterval < o.now - s.lastQueueCheckTime) := by
            simp [hold, hgate.2]
          rw [if_neg hR]
          by_cases hin : (get_queue_status p o.queue).isInQueue = true
          · rw [if_pos hin, hold] at hflip
            exact absurd hflip (by simp)
          · rw [if_neg hin] at hflip
            rw [if_neg hin]
            by_cases hcond : requiredNotInQueue ≤
                (if obsExecuting (check_workflow_status o.hist).2.1 ≠ [] then 0
                 else s.consecutiveNotInQueue + 1)
              ∧ obsOutputs (check_workflow_status o.hist).2.1 ≠ []
            · by_cases hex : obsExecuting (check_workflow_status o.hist).2.1 ≠ []
              · rw [if_pos hex] at hcond
                exact absurd hcond.1 (by simp [requiredNotInQueue])
              · rw [if_neg hex] at hcond
                rw [if_neg hex]
                exact ⟨rfl, hcond.1, hcond.2⟩
            · rw [if_neg hcond, hold] at hflip
              exact absurd hflip (by simp)
        · rw [if_neg hgate, hold] at hflip
          exact absurd hflip (by simp)
theorem counterAfter_cons (k : ℕ) (c : QCheck) (cs : List QCheck) :
    counterAfter k (c :: cs) =
      counterAfter
        (match c with
          | QCheck.skipped => k
          | QCheck.found => 0
          | QCheck.notFoundExec => 0
          | QCheck.notFoundClean => k + 1) cs := by
  cases c <;> rfl

theorem counterAfter_append (k : ℕ) (cs : List QCheck) (c : QCheck) :
    counterAfter k (cs ++ [c]) =
      (match c with
        | QCheck.skipped => counterAfter k cs
        | QCheck.found => 0
        | QCheck.notFoundExec => 0
        | QCheck.notFoundClean => counterAfter k cs + 1) := by
  unfold counterAfter
  rw [List.foldl_append]
  cases c <;> rfl

theorem counterAfter_takeWhile (cs : List QCheck) :
    counterAfter 0 cs =
      ((cs.filter (fun c => c ≠ QCheck.skipped)).reverse.takeWhile
        (fun c => c = QCheck.notFoundClean)).length := by
  induction cs using List.reverseRecOn with
  | nil => rfl
  | append_singleton cs c ih =>
      rw [counterAfter_append]
      cases c with
      | skipped => simpa [List.filter_append] using ih
      | found => simp [List.filter_append, List.reverse_append, List.takeWhile]
      | notFoundExec => simp [List.filter_append, List.reverse_append, List.takeWhile]
      | notFoundClean =>
          simp [List.filter_append, List.reverse_append, List.takeWhile, ih]
theorem runTrace_sound (p : String) (ts t0 : ℤ) :
    ∀ (L : List Obs) (s : WaitState) (i : ℕ) (t : WaitState × Obs × WaitState),
      (runTrace p ts t0 s L)[i]? = some t →
      t.2.2 = (waitStep p ts t0 t.1 t.2.1).2.1 ∧
      t.1.consecutiveNotInQueue
        = counterAfter s.consecutiveNotInQueue
            (((runTrace p ts t0 s L).map
              (fun u => qcheckClass p ts t0 u.1 u.2.1)).take i) := by
  intro L
  induction L with
  | nil => intro s i t ht; simp [runTrace] at ht
  | cons o rest ih =>
      intro s i t ht
      rcases hstep : waitStep p ts t0 s o with ⟨evts, s2, out⟩
      cases out with
      | some r =>
          have htr : runTrace p ts t0 s (o :: rest) = [(s, o, s2)] := by
            rw [runTrace, hstep]
          rw [htr] at ht ⊢
          cases i with
          | zero =>
              simp only [List.getElem?_cons_zero, Option.some.injEq] at ht
              subst ht
              constructor
              · rw [hstep]
              · rfl
          | succ j => simp at ht
      | none =>
          have htr : runTrace p ts t0 s (o :: rest)
              = (s, o, s2) :: runTrace p ts t0 s2 rest := by
            rw [runTrace, hstep]
          rw [htr] at ht ⊢
          cases i with
          | zero =>
              simp only [List.getElem?_cons_zero, Option.some.injEq] at ht
              subst ht
              constructor
              · rw [hstep]
              · rfl
          | succ j =>
              simp only [List.getElem?_cons_succ] at ht
              obtain ⟨ih1, ih2⟩ := ih s2 j t ht
              have hs2 : s2.consecutiveNotInQueue =
                  (match qcheckClass p ts t0 s o with
                    | QCheck.skipped => s.consecutiveNotInQueue
                    | QCheck.found => 0
                    | QCheck.notFoundExec => 0
                    | QCheck.notFoundClean => s.consecutiveNotInQueue + 1) := by
                have h1 := waitStep_counter_class p ts t0 s o
                rw [hstep] at h1
                exact h1
              constructor
              · exact ih1
              · simp only [List.map_cons, List.take_succ_cons, counterAfter_cons]
                rw [ih2, ← hs2]
/-- C4: along any run of the poll loop from the initial state, the
`consecutive_not_in_queue` counter at each executed iteration equals the
streak computed from the queue-check classifications of the earlier
iterations (unchanged on skipped checks, reset to zero on found or
executing-evidence checks, incremented on clean not-found checks); an
iteration can flip `prompt_left_queue` from false to true only on a clean
not-found check whose streak reaches `required_not_in_queue = 5`, so the five
most recent actually-performed queue checks all failed to find the prompt in
either queue with no executing-node evidence; and any found or
executing-evidence check leaves the iteration with the counter at zero. -/
theorem queue_exit_requires_streak (promptId : String) (ts t0 : ℤ)
    (L : List Obs) (i : ℕ) (t : WaitState × Obs × WaitState)
    (ht : (runTrace promptId ts t0 initWaitState L)[i]? = some t) :
    t.1.consecutiveNotInQueue
      = counterAfter 0 (((runTrace promptId ts t0 initWaitState L).map
          (fun u => qcheckClass promptId ts t0 u.1 u.2.1)).take i) ∧
    (t.1.promptLeftQueue = false → t.2.2.promptLeftQueue = true →
      qcheckClass promptId ts t0 t.1 t.2.1 = QCheck.notFoundClean ∧
      requiredNotInQueue ≤ counterAfter 0
        (((runTrace promptId ts t0 initWaitState L).map
          (fun u => qcheckClass promptId ts t0 u.1 u.2.1)).take (i + 1)) ∧
      requiredNotInQueue ≤
        (((((runTrace promptId ts t0 initWaitState L).map
            (fun u => qcheckClass promptId ts t0 u.1 u.2.1)).take (i + 1)).filter
              (fun c => c ≠ QCheck.skipped)).reverse.takeWhile
                (fun c => c = QCheck.notFoundClean)).length) ∧
    ((qcheckClass promptId ts t0 t.1 t.2.1 = QCheck.found ∨
      qcheckClass promptId ts t0 t.1 t.2.1 = QCheck.notFoundExec) →
      t.2.2.consecutiveNotInQueue = 0) := by
  obtain ⟨hstep, hcounter⟩ := runTrace_sound promptId ts t0 L initWaitState i t ht
  have hc0 : t.1.consecutiveNotInQueue
      = counterAfter 0 (((runTrace promptId ts t0 initWaitState L).map
          (fun u => qcheckClass promptId ts t0 u.1 u.2.1)).take i) := hcounter
  have hcs : ((runTrace promptId ts t0 initWaitState L).map
      (fun u => qcheckClass promptId ts t0 u.1 u.2.1))[i]?
      = some (qcheckClass promptId ts t0 t.1 t.2.1) := by
    rw [List.getElem?_map, ht]
    rfl
  have htake : (((runTrace promptId ts t0 initWaitState L).map
      (fun u => qcheckClass promptId ts t0 u.1 u.2.1)).take (i + 1))
      = ((runTrace promptId ts t0 initWaitState L).map
          (fun u => qcheckClass promptId ts t0 u.1 u.2.1)).take i
        ++ [qcheckClass promptId ts t0 t.1 t.2.1] := by
    rw [List.take_succ, hcs]
    rfl
  refine ⟨hcounter, ?flip, ?reset⟩
  case flip =>
    intro h1 h2
    rw [hstep] at h2
    obtain ⟨hc, hreq, _houts⟩ := waitStep_flip promptId ts t0 t.1 t.2.1 h1 h2
    refine ⟨hc, ?b, ?c⟩
    case b =>
      rw [htake, counterAfter_append, hc]
      dsimp only
      rw [← hc0]
      exact hreq
    case c =>
      rw [← counterAfter_takeWhile, htake, counterAfter_append, hc]
      dsimp only
      rw [← hc0]
      exact hreq
  case reset =>
    intro hor
    rw [hstep]
    rw [waitStep_counter_class promptId ts t0 t.1 t.2.1]
    rcases hor with hc | hc <;> rw [hc]

/-- A history with outputs present but no completion evidence. -/
def c4hist : HistResp :=
  HistResp.ok ⟨some ⟨none, some ["5"], some [], none⟩, none, none, none, none⟩

/-- Six polls: found pending once, then absent five times in a row. -/
def c4obs : List Obs :=
  [⟨6, c4hist, some ⟨[], ["p"], none⟩⟩,
   ⟨12, c4hist, some ⟨[], [], none⟩⟩,
   ⟨18, c4hist, some ⟨[], [], none⟩⟩,
   ⟨24, c4hist, some ⟨[], [], none⟩⟩,
   ⟨30, c4hist, some ⟨[], [], none⟩⟩,
   ⟨36, c4hist, some ⟨[], [], none⟩⟩]

/-- Witness: the flip at the sixth poll follows five clean not-found checks. -/
theorem queue_exit_requires_streak_witness :
    requiredNotInQueue ≤
      (((((runTrace "p" 10000 0 initWaitState c4obs).map
          (fun u => qcheckClass "p" 10000 0 u.1 u.2.1)).take (5 + 1)).filter
            (fun c => c ≠ QCheck.skipped)).reverse.takeWhile
              (fun c => c = QCheck.notFoundClean)).length :=
  (((queue_exit_requires_streak "p" 10000 0 c4obs 5
      (((runTrace "p" 10000 0 initWaitState c4obs)[5]?).get (by decide))
      (Option.some_get (by decide)).symm).2.1 (by decide) (by decide)).2.2)

end C3Examples

